import Mathlib

/-!
# Verification of the Kalshi auto-trading bot core
  (src/realtime_scanner/kalshi_reversion_scanner.py)

A shallow embedding of the trading core: the bet sizer
(`calculate_bet_size`), the order executor (`OrderExecutor.execute_entry`,
`KalshiReversionScanner._execute_mention_entry`), the position tracker
(`KalshiPositionTracker.add/check/_save`), the three signal detectors
(`KalshiReversionDetector.detect`, `ImpliedProbDetector.detect`,
`MentionBuyNoDetector.detect`), and the orchestrator cycle
(`KalshiReversionScanner._cycle`).

Conventions of the embedding:
* Prices are integer cents (`ℤ`), timestamps are `ℚ` seconds, money
  amounts are `ℚ` dollars unless a name says cents.
* Python float arithmetic is idealised as exact rational arithmetic;
  `int(...)` is `pyInt` (truncation toward zero) and `round(x, n)` is
  `pyRoundTo n` (round half to even, Python's rounding mode).
* Python dicts keyed by ticker/event are association lists; dict
  insertion-order semantics are preserved by `alistSet`/`alistAppend`.
* Gateway calls (`get_orderbook`, `get_order`, `create_order`,
  `get_market`, milestones) are oracles: functions supplied as inputs,
  returning `Option` results (`None`/`{}` responses become `none`).
* Code paths that would raise in Python (division by zero on a
  zero-price book level) are total here; the relevant theorems either
  avoid them or are insensitive to the chosen value, as noted inline.
-/

namespace KalshiBot

/-- Python `int(q)` on a rational: truncation toward zero. -/
def pyInt (q : ℚ) : ℤ := q.num.tdiv q.den

/-- The floor of a rational, written out so that it evaluates inside the
kernel (`⌊q⌋ = q.num / q.den`, Euclidean division). -/
def ratFloor (q : ℚ) : ℤ := q.num / q.den

theorem ratFloor_eq_floor (q : ℚ) : ratFloor q = ⌊q⌋ := (Rat.floor_def).symm

/-- Python `round` to an integer: round half to even (banker's rounding). -/
def pyRoundHalfEven (q : ℚ) : ℤ :=
  let f := ratFloor q
  let r := q - f
  if r < 1/2 then f
  else if 1/2 < r then f + 1
  else if f % 2 = 0 then f else f + 1

/-- Python `round(q, n)`: round half to even at `n` decimal places. -/
def pyRoundTo (n : ℕ) (q : ℚ) : ℚ :=
  (pyRoundHalfEven (q * (10 : ℚ) ^ n) : ℚ) / (10 : ℚ) ^ n

/-- Python `round(q, 2)` (dollar amounts). -/
def pyRound2 : ℚ → ℚ := pyRoundTo 2

/-- Python `round(q, 4)` (prices). -/
def pyRound4 : ℚ → ℚ := pyRoundTo 4

/-- Python `needle in haystack` on strings (substring test). -/
def strContains (haystack needle : String) : Bool :=
  needle = "" || (haystack.splitOn needle).length > 1

/-- Stable insertion into a list sorted ascending by the first component:
the element goes before the first strictly larger key, as Python's stable
`sorted(key=...)` does. -/
def insertByFst (x : ℤ × ℕ) : List (ℤ × ℕ) → List (ℤ × ℕ)
  | [] => [x]
  | y :: ys => if y.1 < x.1 then y :: insertByFst x ys else x :: y :: ys

/-- Python `sorted(levels, key=lambda x: x[0])`. -/
def sortByFst (l : List (ℤ × ℕ)) : List (ℤ × ℕ) :=
  l.foldr insertByFst []

/-- Stable insertion sort by a string key, mirroring Python
`sorted(trades, key=lambda t: t.get('created_time', ''))`. -/
def insertByKey (key : α → String) (x : α) : List α → List α
  | [] => [x]
  | y :: ys => if key y < key x then y :: insertByKey key x ys else x :: y :: ys

/-- Python stable `sorted` by a string key. -/
def sortByKey (key : α → String) (l : List α) : List α :=
  l.foldr (insertByKey key) []

/-- Python dict assignment `d[k] = v` on an association list: updates the
binding in place if present, appends at the end otherwise. -/
def alistSet (k : String) (v : β) : List (String × β) → List (String × β)
  | [] => [(k, v)]
  | (k', v') :: t => if k' = k then (k, v) :: t else (k', v') :: alistSet k v t

/-- `d.setdefault(k, []).append(a)` used when grouping by key. -/
def alistAppend (k : String) (a : α) : List (String × List α) → List (String × List α)
  | [] => [(k, [a])]
  | (k', vs) :: t =>
      if k' = k then (k', vs ++ [a]) :: t else (k', vs) :: alistAppend k a t

/-- Python `l[-n:]`: the last `n` elements (the whole list if shorter). -/
def lastN (n : ℕ) (l : List α) : List α := l.drop (l.length - n)

/-! ## Configuration constants (module-level CONFIG block of the scanner) -/

/-- `MAX_BET_DOLLARS = 3`. -/
def MAX_BET_DOLLARS : ℚ := 3

/-- `MIN_BET_DOLLARS = 1`. -/
def MIN_BET_DOLLARS : ℚ := 1

/-- `DEPTH_FRACTION = 0.50`. -/
def DEPTH_FRACTION : ℚ := 1/2

/-- `MAX_ORDER_RETRIES = 2`. -/
def MAX_ORDER_RETRIES : ℕ := 2

/-- `MAX_SLIPPAGE_PCT = 15.0`. -/
def MAX_SLIPPAGE_PCT : ℚ := 15

/-- `IMPL_MAX_BET_DOLLARS = 1`. -/
def IMPL_MAX_BET_DOLLARS : ℚ := 1

/-- `DRY_RUN = False` (the live-trading configuration committed in source). -/
def DRY_RUN : Bool := false

/-- `SELL_ONLY = True`. -/
def SELL_ONLY : Bool := true

/-- `COOLDOWN_HOURS = 4` (reversion detector, seconds). -/
def COOLDOWN_SECS : ℚ := 4 * 3600

/-- `IMPL_COOLDOWN_HOURS = 6` (implied-probability detector, seconds). -/
def IMPL_COOLDOWN_SECS : ℚ := 6 * 3600

/-- The mention detector's in-`detect` cooldown window, `24 * 3600`. -/
def MENTION_COOLDOWN_SECS : ℚ := 24 * 3600

/-- `MENTION_BET_DOLLARS = 3`. -/
def MENTION_BET_DOLLARS : ℚ := 3

/-- `MENTION_MAX_NO_PRICE = 0.30`. -/
def MENTION_MAX_NO_PRICE : ℚ := 30/100

/-- `MENTION_MIN_NO_PRICE = 0.05`. -/
def MENTION_MIN_NO_PRICE : ℚ := 5/100

/-- `MENTION_MAX_CLOSE_HOURS = 48`. -/
def MENTION_MAX_CLOSE_HOURS : ℚ := 48

/-- `MENTION_MAX_POSITIONS = 40`. -/
def MENTION_MAX_POSITIONS : ℕ := 40

/-- `MENTION_MAX_RESTING_ORDERS = 10`. -/
def MENTION_MAX_RESTING_ORDERS : ℕ := 10

/-- `MENTION_MAX_EVENT_DOLLARS = 10`. -/
def MENTION_MAX_EVENT_DOLLARS : ℚ := 10

/-- `MENTION_ORDER_REST_SECONDS = 600`. -/
def MENTION_ORDER_REST_SECONDS : ℚ := 600

/-- `HOLD_HOURS = 24` (reversion hold, seconds). -/
def HOLD_SECS : ℚ := 24 * 3600

/-- `IMPL_HOLD_HOURS = 12` (implied-prob hold, seconds). -/
def IMPL_HOLD_SECS : ℚ := 12 * 3600

/-- `MIN_SMALL_TRADES = 12`. -/
def MIN_SMALL_TRADES : ℕ := 12

/-- `MAX_SMALL_TRADES = 40`. -/
def MAX_SMALL_TRADES : ℕ := 40

/-- `SMALL_TRADE_LIMIT = 100`. -/
def SMALL_TRADE_LIMIT : ℤ := 100

/-- `MIN_SIDE_RATIO = 0.65` (named `MIN_SIDE_RATIO` in source). -/
def MIN_SIDE_FRAC : ℚ := 65/100

/-- `MIN_PRICE_MOVE = 0.15`. -/
def MIN_PRICE_MOVE : ℚ := 15/100

/-- `ENTRY_PRICE_MIN = 0.30`. -/
def ENTRY_PRICE_MIN : ℚ := 30/100

/-- `ENTRY_PRICE_MAX = 0.60`. -/
def ENTRY_PRICE_MAX : ℚ := 60/100

/-- `IMPL_DEVIATION_THRESHOLD = 0.05`. -/
def IMPL_DEVIATION_THRESHOLD : ℚ := 5/100

/-- `IMPL_MAX_DEVIATION = 0.30`. -/
def IMPL_MAX_DEVIATION : ℚ := 30/100

/-- `IMPL_MIN_OUTCOMES = 3`. -/
def IMPL_MIN_OUTCOMES : ℕ := 3

/-- `IMPL_MAX_OUTCOMES = 20`. -/
def IMPL_MAX_OUTCOMES : ℕ := 20

/-- `IMPL_MIN_PRICE = 0.03`. -/
def IMPL_MIN_PRICE : ℚ := 3/100

/-- `IMPL_MAX_PRICE = 0.97`. -/
def IMPL_MAX_PRICE : ℚ := 97/100

/-! ## Order book and bet sizer -/

/-- An order-book snapshot as used by the scanner: Kalshi returns only
bids, as `[price_cents, quantity]` levels, for each side. -/
structure Orderbook where
  yes : List (ℤ × ℕ)
  no : List (ℤ × ℕ)
  deriving DecidableEq, Repr

/-- `calculate_bet_size(orderbook, side, entry_price_cents)`: derive NO
asks from YES bids, take the top 3 levels, bet `DEPTH_FRACTION` of their
dollar depth capped at `MAX_BET_DOLLARS` and floored at
`MIN_BET_DOLLARS`, and convert to whole contracts at the best ask.
Returns `(contracts, best_ask_cents, uncapped_dollars)`; `(0, 0, u)`
signals "too thin".  The `side`/`entry_price_cents` arguments are unused
in the source body and are dropped here.  (A zero best ask would raise
`ZeroDivisionError` in Python; here the rational division yields 0
contracts and the same "too thin" result.) -/
def calculate_bet_size (orderbook : Orderbook) : ℕ × ℤ × ℚ :=
  let yes_bids := orderbook.yes
  if yes_bids = [] then (0, 0, 0)
  else
    let no_asks := yes_bids.map (fun b => ((100 : ℤ) - b.1, b.2))
    let asks_sorted := sortByFst no_asks
    let top_levels := asks_sorted.take 3
    if top_levels = [] then (0, 0, 0)
    else
      let best_ask_cents := (top_levels.headI).1
      let depth_dollars : ℚ :=
        (top_levels.map (fun l => (l.1 : ℚ) * (l.2 : ℚ) / 100)).sum
      let uncapped_dollars := pyRound2 (depth_dollars * DEPTH_FRACTION)
      let bet_dollars := min uncapped_dollars MAX_BET_DOLLARS
      if bet_dollars < MIN_BET_DOLLARS then (0, 0, uncapped_dollars)
      else
        let contracts := pyInt (bet_dollars / ((best_ask_cents : ℚ) / 100))
        if contracts < 1 then (0, 0, uncapped_dollars)
        else (contracts.toNat, best_ask_cents, uncapped_dollars)

/-! ## Signals -/

/-- The `signal_type` key of a signal dict (absent means `'reversion'`). -/
inductive SigKind where
  | reversion
  | impliedProb
  | mentionBuyNo
  deriving DecidableEq, Repr, Inhabited

/-- A signal dict as produced by the detectors and consumed by the
executor and tracker.  Prices carried as 0–1 dollar fractions (`ℚ`),
matching the Python floats. -/
structure Signal where
  ticker : String
  title : String
  eventTicker : String
  fadeAction : String
  fadeSide : String
  entryPrice : ℚ
  preSignalPrice : ℚ
  priceMove : ℚ
  nSmallTrades : ℕ
  retailContracts : ℤ
  signalTime : ℚ
  signalType : SigKind
  noPrice : ℚ
  noPriceCents : ℤ
  closeTs : ℚ
  deriving DecidableEq, Repr, Inhabited

/-! ## Order executor (`OrderExecutor.execute_entry`)

The live retry loop is modelled as a trace-producing function: gateway
responses come from an `EntryOracle`, and every externally visible action
(order creation, cancel request, cancel confirmation, a status re-poll
that returned nothing, a late fill) becomes an event.  Order ids are
identified with the retry attempt number that placed them. -/

/-- A `get_order` response body (fields read by the scanner). -/
structure OrderStatus where
  quantityFilled : ℕ
  remainingCount : Option ℕ
  averageFillPrice : Option ℤ
  status : String
  deriving DecidableEq, Repr

/-- The `order_info` dict returned by a successful execution. -/
structure OrderInfo where
  orderAttempt : ℕ
  fillPrice : ℚ
  fillCount : ℕ
  betDollars : ℚ
  slippagePct : ℚ
  dryRun : Bool
  deriving DecidableEq, Repr

/-- Gateway responses for one `execute_entry` run: per attempt, whether
`create_order` returned an order, the `get_order` result after the fill
wait, the up-to-6 re-poll results after a cancel, and the final cleanup
`get_order` result. -/
structure EntryOracle where
  createOk : ℕ → Bool
  statusAfterWait : ℕ → Option OrderStatus
  recheck : ℕ → ℕ → Option OrderStatus
  finalCheck : ℕ → Option OrderStatus

/-- Externally visible executor actions, in program order. -/
inductive ExecEv where
  | place (attempt count : ℕ) (price : ℤ)
  | cancel (attempt : ℕ)
  | confirmCanceled (attempt : ℕ)
  | recheckGone (attempt : ℕ)
  | lateFillSeen (attempt : ℕ)
  | stopUnconfirmed (attempt : ℕ)
  deriving DecidableEq, Repr

/-- Is the event an order placement? -/
def ExecEv.isPlace : ExecEv → Bool
  | .place _ _ _ => true
  | _ => false

/-- Prepend an event to a (trace, result) pair. -/
def consEv (e : ExecEv) (x : List ExecEv × Option OrderInfo) :
    List ExecEv × Option OrderInfo :=
  (e :: x.1, x.2)

/-- Parameters of the retry loop fixed before it starts. -/
structure EntryParams where
  contracts : ℕ
  bestAsk : ℤ
  target : ℤ
  maxPrice : ℤ
  maxDollars : ℚ

/-- `_handle_fill(order_id, status, price)`: build the `order_info` from a
filled/partially-filled order, canceling the remainder if any.  The
`contracts` default for `remaining_count` is the outer sizing variable
(closure capture in the source). -/
def handleFill (target : ℤ) (contracts attempt : ℕ) (st : OrderStatus)
    (price : ℤ) : List ExecEv × OrderInfo :=
  let filled := st.quantityFilled
  let remaining := st.remainingCount.getD contracts
  let avg := st.averageFillPrice.getD price
  let fillSlip : ℚ := if 0 < target then ((avg - target : ℤ) : ℚ) / (target : ℚ) * 100 else 0
  let actualDollars := pyRound2 ((filled : ℚ) * (avg : ℚ) / 100)
  let info : OrderInfo :=
    { orderAttempt := attempt, fillPrice := (avg : ℚ) / 100, fillCount := filled,
      betDollars := actualDollars, slippagePct := pyRound2 fillSlip, dryRun := false }
  ((if 0 < remaining then [ExecEv.cancel attempt] else []), info)

/-- `for prev_id in placed_order_ids: if prev_id != order_id: cancel`. -/
def cancelOthers (placed : List (ℕ × ℕ × ℤ)) (keep : ℕ) : List ExecEv :=
  placed.filterMap fun p => if p.1 = keep then none else some (ExecEv.cancel p.1)

/-- Result of the bounded post-cancel re-poll loop. -/
inductive RecheckOutcome where
  | lateFill (st : OrderStatus)
  | canceledConfirmed
  | gone
  | unconfirmed

/-- The `for _wait in range(6)` re-poll loop after a cancel request: a
missing response breaks out (order treated as gone), a fill is a late
fill, a terminal cancel status confirms the cancel, and six live,
unfilled, uncanceled responses leave the order unconfirmed. -/
def recheckLoop (o : EntryOracle) (attempt : ℕ) : ℕ → ℕ → RecheckOutcome
  | _, 0 => .unconfirmed
  | i, fuel + 1 =>
    match o.recheck attempt i with
    | none => .gone
    | some st =>
      if 0 < st.quantityFilled then .lateFill st
      else if st.status = "canceled" ∨ st.status = "cancelled" then .canceledConfirmed
      else recheckLoop o attempt (i + 1) fuel

/-- The post-loop cleanup: cancel every order placed during this run and
re-poll each; a fill discovered here is accepted (at the `best_ask_cents`
price argument, as in the source). -/
def cleanupLoop (o : EntryOracle) (p : EntryParams)
    (allPlaced : List (ℕ × ℕ × ℤ)) : List (ℕ × ℕ × ℤ) → List ExecEv × Option OrderInfo
  | [] => ([], none)
  | (a, _, _) :: rest =>
    consEv (ExecEv.cancel a) <|
      match o.finalCheck a with
      | some st =>
        if 0 < st.quantityFilled then
          let (fe, info) := handleFill p.target p.contracts a st p.bestAsk
          (ExecEv.lateFillSeen a :: (cancelOthers allPlaced a ++ fe), some info)
        else cleanupLoop o p allPlaced rest
      | none => cleanupLoop o p allPlaced rest

/-- The re-derived contract count at a bumped price:
`min(contracts, int(max_dollars / (price / 100))) if price > 0 else contracts`. -/
def retryCount (maxD : ℚ) (contracts : ℕ) (price : ℤ) : ℕ :=
  if 0 < price then min contracts (pyInt (maxD / ((price : ℚ) / 100))).toNat
  else contracts

/-- The `for attempt in range(MAX_ORDER_RETRIES + 1)` live-order loop.
`fuel` counts the remaining loop iterations; `placed` accumulates the
orders placed so far (`placed_order_ids`). -/
def entryAttempts (o : EntryOracle) (p : EntryParams) :
    ℕ → ℕ → List (ℕ × ℕ × ℤ) → List ExecEv × Option OrderInfo
  | _, 0, placed => cleanupLoop o p placed placed
  | attempt, fuel + 1, placed =>
    let price : ℤ := p.bestAsk + (attempt : ℤ)
    if p.maxPrice < price then cleanupLoop o p placed placed
    else if (99 : ℤ) ≤ price then cleanupLoop o p placed placed
    else
      let retryContracts := retryCount p.maxDollars p.contracts price
      if retryContracts < 1 then cleanupLoop o p placed placed
      else if o.createOk attempt = false then entryAttempts o p (attempt + 1) fuel placed
      else
        let placed' := placed ++ [(attempt, retryContracts, price)]
        consEv (ExecEv.place attempt retryContracts price) <|
          match o.statusAfterWait attempt with
          | none => entryAttempts o p (attempt + 1) fuel placed'
          | some st =>
            if 0 < st.quantityFilled then
              let (fe, info) := handleFill p.target p.contracts attempt st price
              (cancelOthers placed' attempt ++ fe, some info)
            else
              consEv (ExecEv.cancel attempt) <|
                match recheckLoop o attempt 0 6 with
                | .lateFill rst =>
                  let (fe, info) := handleFill p.target p.contracts attempt rst price
                  (ExecEv.lateFillSeen attempt :: (cancelOthers placed' attempt ++ fe),
                    some info)
                | .canceledConfirmed =>
                  consEv (ExecEv.confirmCanceled attempt)
                    (entryAttempts o p (attempt + 1) fuel placed')
                | .gone =>
                  consEv (ExecEv.recheckGone attempt)
                    (entryAttempts o p (attempt + 1) fuel placed')
                | .unconfirmed =>
                  consEv (ExecEv.stopUnconfirmed attempt)
                    (cleanupLoop o p placed' placed')

/-- The sizing phases of `execute_entry` before any order is placed:
returns `(contracts, best_ask_cents, target_price_cents)` or `none` for
every skip path (no order book, book too thin, capital cap unfittable). -/
def entrySizing (book : Option Orderbook) (sig : Signal) : Option (ℕ × ℤ × ℤ) :=
  let entryCents : ℤ := pyInt (sig.entryPrice * 100)
  match book with
  | none => none
  | some orderbook =>
    let sized : Option (ℕ × ℤ × ℤ) :=
      if sig.fadeSide ≠ "yes" then
        -- Buy NO: derive NO asks from YES bids via `calculate_bet_size`
        let (contracts, best, _) := calculate_bet_size orderbook
        some (contracts, best, 100 - entryCents)
      else
        -- Buy YES: derive YES asks from NO bids, or fall back to the entry price
        let no_bids := orderbook.no
        if no_bids = [] then
          some ((max 1 (pyInt (IMPL_MAX_BET_DOLLARS / ((entryCents : ℚ) / 100)))).toNat,
            entryCents, entryCents)
        else
          let yes_asks := no_bids.map (fun b => ((100 : ℤ) - b.1, b.2))
          let asks_sorted := sortByFst yes_asks
          let top_levels := asks_sorted.take 3
          if top_levels = [] then none
          else
            let best := (top_levels.headI).1
            let depth_dollars : ℚ :=
              (top_levels.map (fun l => (l.1 : ℚ) * (l.2 : ℚ) / 100)).sum
            let uncapped := pyRound2 (depth_dollars * DEPTH_FRACTION)
            let bet_raw := min uncapped MAX_BET_DOLLARS
            if bet_raw < MIN_BET_DOLLARS then none
            else
              let contracts : ℤ :=
                if 0 < best then pyInt (bet_raw / ((best : ℚ) / 100)) else 0
              if contracts < 1 then none
              else some (contracts.toNat, best, entryCents)
    match sized with
    | none => none
    | some (contracts, best, target) =>
      if contracts < 1 then none
      else
        -- Hard cap: re-derive contracts so dollar cost never exceeds MAX_BET_DOLLARS
        let bet := pyRound2 ((contracts : ℚ) * (best : ℚ) / 100)
        if MAX_BET_DOLLARS < bet ∧ 0 < best then
          let contracts' := (pyInt (MAX_BET_DOLLARS / ((best : ℚ) / 100))).toNat
          if contracts' < 1 then none else some (contracts', best, target)
        else some (contracts, best, target)

/-- The per-signal max bet of the retry loop (`IMPL_MAX_BET_DOLLARS` for
implied-probability signals, `MAX_BET_DOLLARS` otherwise). -/
def maxDollarsFor (sig : Signal) : ℚ :=
  if sig.signalType = SigKind.impliedProb then IMPL_MAX_BET_DOLLARS else MAX_BET_DOLLARS

/-- `OrderExecutor.execute_entry(signal)`: sizing, capital cap, slippage
gate, then the live retry loop.  Returns the event trace and the
`order_info` (or `none`). -/
def execute_entry (o : EntryOracle) (book : Option Orderbook) (sig : Signal) :
    List ExecEv × Option OrderInfo :=
  match entrySizing book sig with
  | none => ([], none)
  | some (contracts, best, target) =>
    -- Slippage check
    let slippagePct : ℚ :=
      if 0 < target then ((best - target : ℤ) : ℚ) / (target : ℚ) * 100 else 0
    if MAX_SLIPPAGE_PCT < slippagePct then ([], none)
    else if DRY_RUN then
      ([], some ⟨0, sig.entryPrice, contracts,
        pyRound2 ((contracts : ℚ) * (best : ℚ) / 100), 0, true⟩)
    else
      let maxPrice := pyInt ((target : ℚ) * (1 + MAX_SLIPPAGE_PCT / 100))
      entryAttempts o
        { contracts := contracts, bestAsk := best, target := target,
          maxPrice := maxPrice, maxDollars := maxDollarsFor sig }
        0 (MAX_ORDER_RETRIES + 1) []

/-! ## Arithmetic facts about the Python-style helpers -/

theorem pyInt_eq_floor {q : ℚ} (h : 0 ≤ q) : pyInt q = ⌊q⌋ := by
  unfold pyInt
  rw [Rat.floor_def,
    Int.tdiv_eq_ediv (Rat.num_nonneg.mpr h) (Int.natCast_nonneg q.den)]

theorem pyInt_le {q : ℚ} (h : 0 ≤ q) : (pyInt q : ℚ) ≤ q := by
  rw [pyInt_eq_floor h]; exact Int.floor_le q

theorem pyInt_nonneg {q : ℚ} (h : 0 ≤ q) : 0 ≤ pyInt q := by
  rw [pyInt_eq_floor h]
  exact Int.le_floor.mpr (by exact_mod_cast h)

/-- The recomputed contract count at price `pr` keeps the notional cost
within `d` dollars: `min c (int(d / (pr/100))) * pr ≤ d * 100` cents. -/
theorem retry_count_cap (d : ℚ) (hd : 0 ≤ d) (pr : ℤ) (hp : 0 < pr) (c : ℕ) :
    ((min c (pyInt (d / ((pr : ℚ) / 100))).toNat : ℕ) : ℚ) * (pr : ℚ) ≤ d * 100 := by
  set q : ℚ := d / ((pr : ℚ) / 100) with hq
  have hprq : (0 : ℚ) < (pr : ℚ) := by exact_mod_cast hp
  have hq0 : 0 ≤ q := by positivity
  have h1 : ((pyInt q).toNat : ℚ) ≤ q := by
    have h'' : ((pyInt q).toNat : ℤ) = pyInt q := Int.toNat_of_nonneg (pyInt_nonneg hq0)
    have hc : ((pyInt q).toNat : ℚ) = ((pyInt q : ℤ) : ℚ) := by exact_mod_cast h''
    rw [hc]; exact pyInt_le hq0
  have h2 : ((min c (pyInt q).toNat : ℕ) : ℚ) ≤ q := by
    refine le_trans ?_ h1
    exact_mod_cast Nat.cast_le.mpr (min_le_right c _)
  have h3 : ((min c (pyInt q).toNat : ℕ) : ℚ) * (pr : ℚ) ≤ q * (pr : ℚ) := by
    exact mul_le_mul_of_nonneg_right h2 (le_of_lt hprq)
  refine le_trans h3 (le_of_eq ?_)
  rw [hq]
  field_simp

/-! ## Trace facts about the executor loop -/

/-- A trace with no order placements. -/
def noPlaces (tr : List ExecEv) : Prop := ∀ e ∈ tr, e.isPlace = false

/-- Structural soundness of an executor trace: every in-loop cancel
request is immediately resolved (confirmed canceled, or the status poll
returned nothing) before anything else happens, or no order is placed in
the remainder of the run. -/
def TraceOK : List ExecEv → Prop
  | [] => True
  | ExecEv.cancel i :: rest =>
      ((∃ rest', rest = ExecEv.confirmCanceled i :: rest' ∨
          rest = ExecEv.recheckGone i :: rest') ∨ noPlaces rest) ∧ TraceOK rest
  | _ :: rest => TraceOK rest

theorem noPlaces_nil : noPlaces [] := by intro e he; cases he

theorem noPlaces_cons {e : ExecEv} {tr : List ExecEv} (h1 : e.isPlace = false)
    (h2 : noPlaces tr) : noPlaces (e :: tr) := by
  intro x hx
  rcases List.mem_cons.mp hx with rfl | hx
  · exact h1
  · exact h2 x hx

theorem noPlaces_append {t1 t2 : List ExecEv} (h1 : noPlaces t1) (h2 : noPlaces t2) :
    noPlaces (t1 ++ t2) := by
  intro x hx
  rcases List.mem_append.mp hx with hx | hx
  · exact h1 x hx
  · exact h2 x hx

theorem noPlaces_of_cons {e : ExecEv} {tr : List ExecEv} (h : noPlaces (e :: tr)) :
    noPlaces tr := fun x hx => h x (List.mem_cons_of_mem e hx)

theorem traceOK_tail {e : ExecEv} {tr : List ExecEv} (h : TraceOK (e :: tr)) :
    TraceOK tr := by
  cases e <;> simp only [TraceOK] at h <;> try exact h
  exact h.2

theorem traceOK_of_noPlaces {tr : List ExecEv} (h : noPlaces tr) : TraceOK tr := by
  induction tr with
  | nil => trivial
  | cons e rest ih =>
    have hrest := ih (noPlaces_of_cons h)
    cases e <;> simp only [TraceOK] <;> try exact hrest
    exact ⟨Or.inr (noPlaces_of_cons h), hrest⟩

theorem noPlaces_handleFill (target : ℤ) (contracts attempt : ℕ) (st : OrderStatus)
    (price : ℤ) : noPlaces (handleFill target contracts attempt st price).1 := by
  unfold handleFill
  split <;> intro e he <;> simp_all <;> simp [ExecEv.isPlace, *]

theorem noPlaces_cancelOthers (placed : List (ℕ × ℕ × ℤ)) (keep : ℕ) :
    noPlaces (cancelOthers placed keep) := by
  intro e he
  unfold cancelOthers at he
  obtain ⟨p, _, hp⟩ := List.mem_filterMap.mp he
  by_cases h : p.1 = keep <;> simp [h] at hp
  subst hp; rfl

theorem noPlaces_cleanupLoop (o : EntryOracle) (p : EntryParams)
    (allPlaced : List (ℕ × ℕ × ℤ)) :
    ∀ rest, noPlaces (cleanupLoop o p allPlaced rest).1 := by
  intro rest
  induction rest with
  | nil => exact noPlaces_nil
  | cons hd tl ih =>
    obtain ⟨a, c, pr⟩ := hd
    simp only [cleanupLoop, consEv]
    split
    · next st _ =>
      split
      · refine noPlaces_cons rfl (noPlaces_cons rfl ?_)
        exact noPlaces_append (noPlaces_cancelOthers _ _) (noPlaces_handleFill _ _ _ _ _)
      · exact noPlaces_cons rfl ih
    · exact noPlaces_cons rfl ih

theorem traceOK_cons_place {a c : ℕ} {p : ℤ} {rest : List ExecEv} :
    TraceOK (ExecEv.place a c p :: rest) ↔ TraceOK rest := by simp [TraceOK]

theorem traceOK_cons_confirm {i : ℕ} {rest : List ExecEv} :
    TraceOK (ExecEv.confirmCanceled i :: rest) ↔ TraceOK rest := by simp [TraceOK]

theorem traceOK_cons_gone {i : ℕ} {rest : List ExecEv} :
    TraceOK (ExecEv.recheckGone i :: rest) ↔ TraceOK rest := by simp [TraceOK]

theorem traceOK_cons_cancel {i : ℕ} {rest : List ExecEv} :
    TraceOK (ExecEv.cancel i :: rest) ↔
      ((∃ rest', rest = ExecEv.confirmCanceled i :: rest' ∨
          rest = ExecEv.recheckGone i :: rest') ∨ noPlaces rest) ∧ TraceOK rest := by
  simp [TraceOK]

theorem traceOK_entryAttempts (o : EntryOracle) (p : EntryParams) :
    ∀ fuel attempt placed, TraceOK (entryAttempts o p attempt fuel placed).1 := by
  intro fuel
  induction fuel with
  | zero =>
    intro attempt placed
    exact traceOK_of_noPlaces (noPlaces_cleanupLoop o p placed placed)
  | succ fuel ih =>
    intro attempt placed
    simp only [entryAttempts]
    repeat' split
    all_goals try dsimp only [consEv]
    all_goals first
      | exact traceOK_of_noPlaces (noPlaces_cleanupLoop o p _ _)
      | exact ih _ _
      | (rw [traceOK_cons_place]
         first
           | exact ih _ _
           | exact traceOK_of_noPlaces
               (noPlaces_append (noPlaces_cancelOthers _ _) (noPlaces_handleFill _ _ _ _ _))
           | (rw [traceOK_cons_cancel]
              first
                | exact ⟨Or.inl ⟨_, Or.inl rfl⟩,
                    by rw [traceOK_cons_confirm]; exact ih _ _⟩
                | exact ⟨Or.inl ⟨_, Or.inr rfl⟩,
                    by rw [traceOK_cons_gone]; exact ih _ _⟩
                | exact ⟨Or.inr (noPlaces_cons rfl
                      (noPlaces_append (noPlaces_cancelOthers _ _)
                        (noPlaces_handleFill _ _ _ _ _))),
                    traceOK_of_noPlaces (noPlaces_cons rfl
                      (noPlaces_append (noPlaces_cancelOthers _ _)
                        (noPlaces_handleFill _ _ _ _ _)))⟩
                | exact ⟨Or.inr (noPlaces_cons rfl (noPlaces_cleanupLoop o p _ _)),
                    traceOK_of_noPlaces
                      (noPlaces_cons rfl (noPlaces_cleanupLoop o p _ _))⟩))

/-- The cancel-race guard as the specification states it: once a cancel
of order `i` has been requested, a later order placement must be
preceded (between the two) by the gateway confirming a late fill or a
terminal canceled status for order `i`. -/
def cancelConfirmGuard (tr : List ExecEv) : Prop :=
  ∀ xs i ys, tr = xs ++ ExecEv.cancel i :: ys →
    ∀ zs a c pr ws, ys = zs ++ ExecEv.place a c pr :: ws →
      ∃ e ∈ zs, e = ExecEv.confirmCanceled i ∨ e = ExecEv.lateFillSeen i

/-- The guard the code actually maintains: as `cancelConfirmGuard`, but a
status re-poll that returns no order (`get_order` gave nothing) also
counts as resolving order `i`'s fate. -/
def cancelResolvedGuard (tr : List ExecEv) : Prop :=
  ∀ xs i ys, tr = xs ++ ExecEv.cancel i :: ys →
    ∀ zs a c pr ws, ys = zs ++ ExecEv.place a c pr :: ws →
      ∃ e ∈ zs, e = ExecEv.confirmCanceled i ∨ e = ExecEv.lateFillSeen i ∨
        e = ExecEv.recheckGone i

theorem traceOK_guard : ∀ (xs tr : List ExecEv), TraceOK tr →
    ∀ i ys, tr = xs ++ ExecEv.cancel i :: ys →
      ∀ zs a c pr ws, ys = zs ++ ExecEv.place a c pr :: ws →
        ∃ e ∈ zs, e = ExecEv.confirmCanceled i ∨ e = ExecEv.lateFillSeen i ∨
          e = ExecEv.recheckGone i := by
  intro xs
  induction xs with
  | nil =>
    intro tr h i ys htr zs a c pr ws hys
    subst htr
    rw [List.nil_append, traceOK_cons_cancel] at h
    rcases h.1 with ⟨rest', hr | hr⟩ | hnp
    · subst hys
      cases zs with
      | nil => simp at hr
      | cons z zs' =>
        rw [List.cons_append] at hr
        exact ⟨z, List.mem_cons_self z zs', Or.inl (List.head_eq_of_cons_eq hr)⟩
    · subst hys
      cases zs with
      | nil => simp at hr
      | cons z zs' =>
        rw [List.cons_append] at hr
        refine ⟨z, List.mem_cons_self z zs', Or.inr (Or.inr ?_)⟩
        exact List.head_eq_of_cons_eq hr
    · exfalso
      have : (ExecEv.place a c pr).isPlace = false := by
        refine hnp _ ?_
        rw [hys]
        exact List.mem_append.mpr (Or.inr (List.mem_cons_self _ _))
      simp [ExecEv.isPlace] at this
  | cons x xs' ihx =>
    intro tr h i ys htr zs a c pr ws hys
    subst htr
    exact ihx _ (traceOK_tail h) i ys rfl zs a c pr ws hys

/-- The cancel-race guard actually holds for every executor loop trace. -/
theorem entryAttempts_cancel_guard (o : EntryOracle) (p : EntryParams)
    (fuel attempt : ℕ) (placed : List (ℕ × ℕ × ℤ)) :
    cancelResolvedGuard (entryAttempts o p attempt fuel placed).1 := by
  intro xs i ys htr zs a c pr ws hys
  exact traceOK_guard xs _ (traceOK_entryAttempts o p fuel attempt placed)
    i ys htr zs a c pr ws hys

/-- The recomputed count times the (positive or not) price never exceeds
the dollar cap, in cents. -/
theorem retryCount_cap (d : ℚ) (hd : 0 ≤ d) (c₀ : ℕ) (pr : ℤ) :
    ((retryCount d c₀ pr : ℕ) : ℚ) * (pr : ℚ) ≤ d * 100 := by
  unfold retryCount
  split
  · exact retry_count_cap d hd pr (by assumption) c₀
  · next hneg =>
    have h1 : (pr : ℚ) ≤ 0 := by exact_mod_cast Int.not_lt.mp hneg
    have h2 : ((c₀ : ℕ) : ℚ) * (pr : ℚ) ≤ 0 :=
      mul_nonpos_of_nonneg_of_nonpos (by positivity) h1
    have h3 : (0 : ℚ) ≤ d * 100 := by positivity
    exact le_trans h2 h3

/-- Every order placed by the retry loop keeps `count × price` within
`maxDollars` (in cents) and its price within the slippage-derived
`maxPrice`. -/
theorem entryAttempts_place_bound (o : EntryOracle) (p : EntryParams)
    (hd : 0 ≤ p.maxDollars) :
    ∀ fuel attempt placed a c pr,
      ExecEv.place a c pr ∈ (entryAttempts o p attempt fuel placed).1 →
      (c : ℚ) * (pr : ℚ) ≤ p.maxDollars * 100 ∧ pr ≤ p.maxPrice := by
  intro fuel
  induction fuel with
  | zero =>
    intro attempt placed a c pr he
    have hf := noPlaces_cleanupLoop o p placed placed _ he
    simp [ExecEv.isPlace] at hf
  | succ fuel ih =>
    intro attempt placed a c pr he
    simp only [entryAttempts] at he
    repeat' split at he
    all_goals try dsimp only [consEv] at he
    all_goals first
      | exact ih _ _ _ _ _ he
      | (have hf := noPlaces_cleanupLoop o p _ _ _ he
         simp [ExecEv.isPlace] at hf)
      | (rcases List.mem_cons.mp he with heq | he₁
         · injection heq with ha hc hp
           subst hc; subst hp
           exact ⟨retryCount_cap p.maxDollars hd p.contracts _, by omega⟩
         · first
            | exact ih _ _ _ _ _ he₁
            | (have hf := noPlaces_append (noPlaces_cancelOthers _ _)
                 (noPlaces_handleFill _ _ _ _ _) _ he₁
               simp [ExecEv.isPlace] at hf)
            | (rcases List.mem_cons.mp he₁ with heq₂ | he₂
               · exact absurd heq₂ (by simp)
               · rcases List.mem_cons.mp he₂ with heq₃ | he₃
                 · exact absurd heq₃ (by simp)
                 · first
                    | exact ih _ _ _ _ _ he₃
                    | (have hf := noPlaces_append (noPlaces_cancelOthers _ _)
                         (noPlaces_handleFill _ _ _ _ _) _ he₃
                       simp [ExecEv.isPlace] at hf)
                    | (have hf := noPlaces_cleanupLoop o p _ _ _ he₃
                       simp [ExecEv.isPlace] at hf)))

theorem maxDollarsFor_nonneg (sig : Signal) : 0 ≤ maxDollarsFor sig := by
  unfold maxDollarsFor
  split <;> norm_num [IMPL_MAX_BET_DOLLARS, MAX_BET_DOLLARS]

/-- Every placed order of a full `execute_entry` run comes from the retry
loop started with the parameters derived from `entrySizing`. -/
theorem execute_entry_place_elim (o : EntryOracle) (book : Option Orderbook)
    (sig : Signal) {a c : ℕ} {pr : ℤ}
    (hmem : ExecEv.place a c pr ∈ (execute_entry o book sig).1) :
    ∃ cbt : ℕ × ℤ × ℤ, entrySizing book sig = some cbt ∧
      ExecEv.place a c pr ∈ (entryAttempts o
        { contracts := cbt.1, bestAsk := cbt.2.1, target := cbt.2.2,
          maxPrice := pyInt ((cbt.2.2 : ℚ) * (1 + MAX_SLIPPAGE_PCT / 100)),
          maxDollars := maxDollarsFor sig } 0 (MAX_ORDER_RETRIES + 1) []).1 := by
  unfold execute_entry at hmem
  split at hmem
  · simp at hmem
  · next contracts best target heq =>
    simp only [DRY_RUN, Bool.false_eq_true, if_false] at hmem
    split at hmem <;> split at hmem <;>
      first
        | exact ⟨(contracts, best, target), heq, hmem⟩
        | simp at hmem

/-- **C2.** Capital cap: for every order placed by
`OrderExecutor.execute_entry` — including retry attempts at bumped
prices — the order's `count × limit_price` in dollars does not exceed
the configured max bet for the signal's strategy kind
(`IMPL_MAX_BET_DOLLARS` for implied-probability signals,
`MAX_BET_DOLLARS` otherwise); the count is re-derived at each new price,
so the recomputation after a price bump never violates the cap. -/
theorem claim_C2_capital_cap (o : EntryOracle) (book : Option Orderbook)
    (sig : Signal) (a c : ℕ) (pr : ℤ)
    (hmem : ExecEv.place a c pr ∈ (execute_entry o book sig).1) :
    (c : ℚ) * (pr : ℚ) / 100 ≤ maxDollarsFor sig := by
  obtain ⟨cbt, _, hm⟩ := execute_entry_place_elim o book sig hmem
  have h := (entryAttempts_place_bound o _ (maxDollarsFor_nonneg sig)
    _ _ _ _ _ _ hm).1
  simp only at h
  linarith

/-! Concrete gateway scenarios used by the witnesses and counterexamples. -/

/-- A reversion-style signal at entry price 50c (fade side NO). -/
def sigRev0 : Signal :=
  { ticker := "KXFOO-X", title := "Example", eventTicker := "KXFOO",
    fadeAction := "SELL", fadeSide := "no", entryPrice := 1/2,
    preSignalPrice := 3/10, priceMove := 1/5, nSmallTrades := 12,
    retailContracts := 120, signalTime := 1000000, signalType := .reversion,
    noPrice := 0, noPriceCents := 0, closeTs := 0 }

/-- A book whose YES bid of 90c yields a best NO ask of 10c, depth $6. -/
def book0 : Orderbook := ⟨[(90, 60)], []⟩

/-- A book whose YES bid of 10c yields a best NO ask of 90c. -/
def bookHigh : Orderbook := ⟨[(10, 60)], []⟩

/-- A gateway that fills the first order completely. -/
def oracleFill : EntryOracle :=
  { createOk := fun _ => true,
    statusAfterWait := fun _ => some ⟨30, some 0, some 10, "executed"⟩,
    recheck := fun _ _ => none, finalCheck := fun _ => none }

/-- A gateway that leaves the first order unfilled and then returns
nothing for the post-cancel status re-poll (a delayed/lost cancel
response), and fills the second order. -/
def oracleGone : EntryOracle :=
  { createOk := fun _ => true,
    statusAfterWait := fun a =>
      if a = 0 then some ⟨0, some 30, none, "resting"⟩
      else some ⟨27, some 0, some 11, "executed"⟩,
    recheck := fun _ _ => none, finalCheck := fun _ => none }

/-- Witness for C2: the gateway scenario `oracleFill`/`book0` places an
order of 30 contracts at 10c and the cap holds there. -/
theorem claim_C2_capital_cap_witness :
    (30 : ℚ) * (10 : ℚ) / 100 ≤ maxDollarsFor sigRev0 :=
  claim_C2_capital_cap oracleFill (some book0) sigRev0 0 30 10 (by with_unfolding_all decide)

/-- **C3 (counterexample).** The claim's cancel-race guard fails as
stated: with `oracleGone`, order 0's cancel is requested, the status
re-poll returns nothing (neither a late fill nor a terminal canceled
status is ever confirmed), and a second order is nonetheless placed. -/
theorem claim_C3_counterexample :
    ¬ cancelConfirmGuard (execute_entry oracleGone (some book0) sigRev0).1 := by
  intro h
  have h1 := h [ExecEv.place 0 30 10] 0
    [ExecEv.recheckGone 0, ExecEv.place 1 27 11, ExecEv.cancel 0]
    (by with_unfolding_all decide)
    [ExecEv.recheckGone 0] 1 27 11 [ExecEv.cancel 0] (by decide)
  simp at h1

/-- **C3 (amended).** Within a single signal's execution, after an
unfilled order's cancel has been requested, no new order is placed until
the gateway either confirms a late fill, confirms a terminal canceled
status, or a status re-poll returns no order (which the executor treats
as the order being gone); when the order stays visibly alive and
unconfirmed through the bounded re-poll, execution stops retrying and
places no further order. -/
theorem claim_C3_cancel_guard (o : EntryOracle) (book : Option Orderbook)
    (sig : Signal) :
    cancelResolvedGuard (execute_entry o book sig).1 := by
  unfold execute_entry
  split
  · intro xs i ys htr; simp at htr
  · simp only [DRY_RUN, Bool.false_eq_true, if_false]
    split <;> split <;>
      first
        | exact entryAttempts_cancel_guard o _ _ _ _
        | (intro xs i ys htr; simp at htr)

/-- Witness for C3 (amended): the guard holds of the concrete trace
produced by the `oracleGone` scenario. -/
theorem claim_C3_cancel_guard_witness :
    cancelResolvedGuard
      [ExecEv.place 0 30 10, ExecEv.cancel 0, ExecEv.recheckGone 0,
        ExecEv.place 1 27 11, ExecEv.cancel 0] := by
  have h := claim_C3_cancel_guard oracleGone (some book0) sigRev0
  rwa [show (execute_entry oracleGone (some book0) sigRev0).1 =
    [ExecEv.place 0 30 10, ExecEv.cancel 0, ExecEv.recheckGone 0,
      ExecEv.place 1 27 11, ExecEv.cancel 0] from by with_unfolding_all decide] at h

/-- **C4 (counterexample).** The stated absolute-value slippage bound is
not what the code enforces: with `book0` the best NO ask is 10c against
a 50c target, so `|best − target| / target = 80% > 15%`, yet
`execute_entry` places an order and returns order-info (the check is
one-sided: only adverse deviations are bounded). -/
theorem claim_C4_counterexample :
    entrySizing (some book0) sigRev0 = some (30, 10, 50) ∧
    MAX_SLIPPAGE_PCT < |((10 : ℤ) - 50 : ℤ)| / ((50 : ℤ) : ℚ) * 100 ∧
    (∃ e ∈ (execute_entry oracleFill (some book0) sigRev0).1, e.isPlace = true) ∧
    (execute_entry oracleFill (some book0) sigRev0).2.isSome := by
  refine ⟨by with_unfolding_all decide, by norm_num [MAX_SLIPPAGE_PCT],
    by with_unfolding_all decide, by with_unfolding_all decide⟩

/-- **C4 (amended).** For every signal routed to
`OrderExecutor.execute_entry`, an entry order is only placed when the
signed adverse slippage `(best − target)/target` is at most
`MAX_SLIPPAGE_PCT` (15%): when that bound is exceeded, execution places
no order and returns no order-info; and every order that is placed has a
limit price at most `int(target × 1.15)`.  (Favourable deviations of any
size pass the gate, and the separate mention entry path applies no
relative slippage bound at all.) -/
theorem claim_C4_slippage_gate (o : EntryOracle) (book : Option Orderbook)
    (sig : Signal) (cbt : ℕ × ℤ × ℤ) (hsz : entrySizing book sig = some cbt) :
    (0 < cbt.2.2 →
      MAX_SLIPPAGE_PCT < ((cbt.2.1 - cbt.2.2 : ℤ) : ℚ) / (cbt.2.2 : ℚ) * 100 →
      execute_entry o book sig = ([], none)) ∧
    (∀ a c pr, ExecEv.place a c pr ∈ (execute_entry o book sig).1 →
      pr ≤ pyInt ((cbt.2.2 : ℚ) * (1 + MAX_SLIPPAGE_PCT / 100))) := by
  obtain ⟨c0, b0, t0⟩ := cbt
  constructor
  · intro hpos hslip
    unfold execute_entry
    rw [hsz]
    simp only
    rw [if_pos hpos, if_pos hslip]
  · intro a c pr hmem
    obtain ⟨cbt', hsz', hm⟩ := execute_entry_place_elim o book sig hmem
    rw [hsz] at hsz'
    obtain rfl : cbt' = (c0, b0, t0) := by
      injection hsz' with h'
      exact h'.symm
    exact (entryAttempts_place_bound o _ (maxDollarsFor_nonneg sig)
      _ _ _ _ _ _ hm).2

/-- Witness for C4 (amended): with `bookHigh` the gate trips (best 90c vs
target 50c, +80%) and execution returns no order; with `book0` the one
placed order's price 10c is within `int(50 × 1.15) = 57`. -/
theorem claim_C4_slippage_gate_witness :
    execute_entry oracleFill (some bookHigh) sigRev0 = ([], none) ∧
    (10 : ℤ) ≤ pyInt (((50 : ℤ) : ℚ) * (1 + MAX_SLIPPAGE_PCT / 100)) := by
  constructor
  · exact (claim_C4_slippage_gate oracleFill (some bookHigh) sigRev0
      (3, 90, 50) (by with_unfolding_all decide)).1 (by decide)
      (by norm_num [MAX_SLIPPAGE_PCT])
  · exact (claim_C4_slippage_gate oracleFill (some book0) sigRev0
      (30, 10, 50) (by with_unfolding_all decide)).2 0 30 10
      (by with_unfolding_all decide)

/-! ## Position tracker (`KalshiPositionTracker`)

A position dict.  Optional fields model keys that are only present on
some positions (`fill_price`, `no_price`, `settle_pnl`, ...), read back
with `.get(key, default)` semantics. -/

/-- A tracked position (`KalshiPositionTracker.add` builds these). -/
structure Position where
  ticker : String
  eventTicker : String
  title : String
  fadeAction : String
  fadeSide : String
  entryPrice : ℚ
  preSignalPrice : ℚ
  priceMove : ℚ
  nSmallTrades : ℕ
  retailContracts : ℤ
  entryTime : ℚ
  exitTime : ℚ
  status : String
  signalType : SigKind
  noPrice : Option ℚ
  holdUntilSettle : Bool
  orderAttempt : ℕ
  fillPrice : Option ℚ
  fillCount : ℕ
  betDollars : ℚ
  isLive : Bool
  settlePnl : Option ℚ
  result : Option String
  closeTime : Option ℚ
  exitPrice : Option ℚ
  roiPct : Option ℚ
  deriving DecidableEq, Repr

/-- The tracker's in-memory state: `self.positions` and `self.closed`. -/
structure TrackerState where
  positions : List Position
  closed : List Position
  deriving DecidableEq, Repr

/-- The JSON record `_save` writes to `kalshi_positions.json`:
`{'open': self.positions, 'closed': self.closed[-100:]}`. -/
structure PersistRecord where
  openList : List Position
  closedList : List Position
  deriving DecidableEq, Repr

/-- The content persisted by `KalshiPositionTracker._save`. -/
def persistOf (st : TrackerState) : PersistRecord :=
  ⟨st.positions, lastN 100 st.closed⟩

/-- `has_open_ticker`: any tracked position with this ticker. -/
def TrackerState.has_open_ticker (st : TrackerState) (ticker : String) : Bool :=
  st.positions.any (fun p => p.ticker = ticker)

/-- `event_exposure`: dollars deployed on open positions of an event. -/
def TrackerState.event_exposure (st : TrackerState) (event_ticker : String) : ℚ :=
  if event_ticker = "" then 0
  else ((st.positions.filter
    (fun p => p.status = "open" ∧ p.eventTicker = event_ticker)).map
      (fun p => p.betDollars)).sum

/-- `count(signal_type)`. -/
def TrackerState.countType (st : TrackerState) (t : SigKind) : ℕ :=
  (st.positions.filter (fun p => p.signalType = t)).length

/-- `KalshiPositionTracker.add(signal, order_info)`: build an `open`
position (exit time per strategy kind), append it, and save.  Returns
the new state and the persisted records written (exactly one). -/
def trackerAdd (st : TrackerState) (sig : Signal) (oi : Option OrderInfo) :
    TrackerState × List PersistRecord :=
  let exit_time : ℚ :=
    match sig.signalType with
    | SigKind.mentionBuyNo => sig.closeTs
    | SigKind.impliedProb => sig.signalTime + IMPL_HOLD_SECS
    | SigKind.reversion => sig.signalTime + HOLD_SECS
  let pos : Position :=
    { ticker := sig.ticker, eventTicker := sig.eventTicker, title := sig.title,
      fadeAction := sig.fadeAction, fadeSide := sig.fadeSide,
      entryPrice := sig.entryPrice, preSignalPrice := sig.preSignalPrice,
      priceMove := sig.priceMove, nSmallTrades := sig.nSmallTrades,
      retailContracts := sig.retailContracts, entryTime := sig.signalTime,
      exitTime := exit_time, status := "open", signalType := sig.signalType,
      noPrice := if sig.signalType = SigKind.mentionBuyNo then some sig.noPrice else none,
      holdUntilSettle := sig.signalType = SigKind.mentionBuyNo,
      orderAttempt := match oi with | some i => i.orderAttempt | none => 0,
      fillPrice := match oi with | some i => some i.fillPrice | none => none,
      fillCount := match oi with | some i => i.fillCount | none => 0,
      betDollars := match oi with | some i => i.betDollars | none => 0,
      isLive := oi.isSome, settlePnl := none, result := none,
      closeTime := none, exitPrice := none, roiPct := none }
  let st' : TrackerState := ⟨st.positions ++ [pos], st.closed⟩
  (st', [persistOf st'])

/-- A `get_market` response as read by `check` (`status`, `result`). -/
structure MarketView where
  status : String
  result : String
  deriving DecidableEq, Repr

/-- `_roi(pos, current)`. -/
def roiOf (pos : Position) (current : Option ℚ) : Option ℚ :=
  match current with
  | none => none
  | some cur =>
    let entry := pos.fillPrice.getD pos.entryPrice
    if pos.fadeAction = "SELL" then some ((entry - cur) / entry * 100)
    else some ((cur - entry) / entry * 100)

/-- The loop body of `KalshiPositionTracker.check`: returns the
still-open positions, the newly closed positions (in iteration order),
and the alerts.  A position whose status is not `open` is dropped
(`continue` without re-adding, as in the source). -/
def checkLoop (get : String → Option MarketView) (price : String → Option ℚ)
    (now : ℚ) : List Position → List Position × List Position × List (String × Position)
  | [] => ([], [], [])
  | pos :: rest =>
    let (s, c, a) := checkLoop get price now rest
    if pos.status ≠ "open" then (s, c, a)
    else if pos.signalType = SigKind.mentionBuyNo then
      let market := get pos.ticker
      let status := match market with | some m => m.status | none => "open"
      if status = "settled" ∨ status = "finalized" then
        let result := match market with | some m => m.result | none => ""
        let fill_price := pos.fillPrice.getD (pos.noPrice.getD 0)
        let fill_count := pos.fillCount
        let pnl : ℚ :=
          if result = "no" then (fill_count : ℚ) * (1 - fill_price)
          else if result = "yes" then -((fill_count : ℚ) * fill_price)
          else 0
        let pos' := { pos with
          settlePnl := some (pyRound2 pnl), result := some result,
          status := "settled", closeTime := some now }
        (s, pos' :: c, ("settled", pos') :: a)
      else (pos :: s, c, a)
    else
      let current := price pos.ticker
      let roi := roiOf pos current
      if pos.exitTime ≤ now then
        let pos' := { pos with
          exitPrice := current, roiPct := roi,
          status := "closed_24h", closeTime := some now }
        (s, pos' :: c, ("24h_exit", pos') :: a)
      else (pos :: s, c, a)

/-- `KalshiPositionTracker.check(client)`: settle/close positions, keep
the rest, save once at the end.  Returns the new state, the alerts, and
the persisted records written (exactly one). -/
def trackerCheck (get : String → Option MarketView) (price : String → Option ℚ)
    (now : ℚ) (st : TrackerState) :
    TrackerState × List (String × Position) × List PersistRecord :=
  let (s, c, a) := checkLoop get price now st.positions
  let st' : TrackerState := ⟨s, st.closed ++ c⟩
  (st', a, [persistOf st'])

/-- `TradeLogger.record(entry)`: append and save; the save persists only
the last 500 entries (`self.log[-500:]`).  Entries are kept abstract as
serialized strings. -/
def TradeLogger.record (log : List String) (e : String) :
    List String × List String :=
  (log ++ [e], lastN 500 (log ++ [e]))

/-! ## File-write crash model for `_save`

`KalshiPositionTracker._save` writes with `open(POSITIONS_FILE, 'w')`
followed by `json.dump`: an in-place truncate-then-write.  File contents
are byte lists; a crash can expose the old content (before the `open`),
or any prefix of the new content (the `open(..., 'w')` truncates to the
empty file immediately, and the dump streams bytes). -/

/-- Observable on-disk contents at crash points of an in-place
truncate-then-write (mode `'w'`). -/
def truncWriteCrashStates (old new : List Char) : List (List Char) :=
  old :: (List.range (new.length + 1)).map (fun k => new.take k)

/-- Observable on-disk contents at crash points of an atomic whole-file
replace (write-temp-then-rename), which the code does not use. -/
def atomicReplaceCrashStates (old new : List Char) : List (List Char) :=
  [old, new]

/-! ## Facts about `lastN` and the rounding helpers -/

theorem lastN_length_le (n : ℕ) (l : List α) : (lastN n l).length ≤ n := by
  simp only [lastN, List.length_drop]
  omega

theorem lastN_suffix (n : ℕ) (l : List α) : lastN n l <:+ l :=
  List.drop_suffix _ _

theorem lastN_of_le {n : ℕ} {l : List α} (h : l.length ≤ n) : lastN n l = l := by
  simp only [lastN, Nat.sub_eq_zero_of_le h, List.drop_zero]

theorem lastN_append_right {n : ℕ} (pre suf : List α) (h : suf.length = n) :
    lastN n (pre ++ suf) = suf := by
  simp only [lastN, List.length_append, h]
  rw [show pre.length + n - n = pre.length by omega, List.drop_left]

theorem pyRoundHalfEven_intCast (z : ℤ) : pyRoundHalfEven (z : ℚ) = z := by
  unfold pyRoundHalfEven
  rw [ratFloor_eq_floor, Int.floor_intCast]
  norm_num

/-- `round(x, 2)` is the identity on exact cent amounts. -/
theorem pyRound2_cents (z : ℤ) : pyRound2 ((z : ℚ) / 100) = (z : ℚ) / 100 := by
  unfold pyRound2 pyRoundTo
  have h1 : ((z : ℚ) / 100) * (10 : ℚ) ^ 2 = (z : ℚ) := by ring
  rw [h1, pyRoundHalfEven_intCast]
  ring

/-- **C9.** Bounded closed archive: every persisted tracker record keeps
the full open list but only the (at most) 100 most recently closed
positions, so older terminal positions drop out of the durable record;
the trade logger similarly persists only the last 500 log entries. -/
theorem claim_C9_bounded_archive :
    (∀ st : TrackerState,
      (persistOf st).openList = st.positions ∧
      (persistOf st).closedList.length ≤ 100 ∧
      (persistOf st).closedList <:+ st.closed ∧
      (st.closed.length ≤ 100 → (persistOf st).closedList = st.closed) ∧
      (∀ pre suf, st.closed = pre ++ suf → suf.length = 100 →
        (persistOf st).closedList = suf)) ∧
    (∀ (log : List String) (e : String),
      (TradeLogger.record log e).2.length ≤ 500 ∧
      (TradeLogger.record log e).2 <:+ (TradeLogger.record log e).1 ∧
      (∀ pre suf, log ++ [e] = pre ++ suf → suf.length = 500 →
        (TradeLogger.record log e).2 = suf)) := by
  constructor
  · intro st
    refine ⟨rfl, lastN_length_le _ _, lastN_suffix _ _, fun h => lastN_of_le h, ?_⟩
    intro pre suf hsplit hlen
    simp only [persistOf]
    rw [hsplit, lastN_append_right pre suf hlen]
  · intro log e
    simp only [TradeLogger.record]
    refine ⟨lastN_length_le _ _, lastN_suffix _ _, ?_⟩
    intro pre suf hsplit hlen
    rw [hsplit, lastN_append_right pre suf hlen]

/-- A filler position used by concrete examples. -/
def posStub : Position :=
  { ticker := "KXSTUB-X", eventTicker := "KXSTUB", title := "Stub",
    fadeAction := "SELL", fadeSide := "no", entryPrice := 1/2,
    preSignalPrice := 1/2, priceMove := 0, nSmallTrades := 0,
    retailContracts := 0, entryTime := 0, exitTime := 0, status := "open",
    signalType := SigKind.reversion, noPrice := none, holdUntilSettle := false,
    orderAttempt := 0, fillPrice := none, fillCount := 0, betDollars := 0,
    isLive := false, settlePnl := none, result := none, closeTime := none,
    exitPrice := none, roiPct := none }

/-- Witness for C9: a 105-entry closed list is persisted as its last 100
entries, dropping the oldest five. -/
theorem claim_C9_bounded_archive_witness :
    (persistOf ⟨[], List.replicate 5 posStub ++ List.replicate 100 posStub⟩).closedList
      = List.replicate 100 posStub :=
  (claim_C9_bounded_archive.1 _).2.2.2.2 (List.replicate 5 posStub)
    (List.replicate 100 posStub) rfl (by simp)

/-- **C5 (counterexample).** The persisted rewrite is not an atomic
whole-file replace: `_save` opens the positions file in truncating
write mode, and a crash between the truncation and the completed dump
exposes a file that is neither the previous nor the new complete state
(here: the empty file, and the one-byte prefix of the new content). -/
theorem claim_C5_counterexample :
    ¬ (∀ s ∈ truncWriteCrashStates "OLD".toList "NEWSTATE".toList,
        s = "OLD".toList ∨ s = "NEWSTATE".toList) := by
  decide

/-- **C5 (amended).** Every mutation of the position set is followed by a
whole-file rewrite of the open list and bounded closed archive before
the cycle proceeds — `add` saves exactly once after appending, and
`check` saves exactly once after processing every position — but the
rewrite is an in-place truncate-then-write (`open(file, 'w')` plus
`json.dump`), not an atomic replace: whenever the old and new serialized
states are nonempty, some crash state differs from both. -/
theorem claim_C5_persistence :
    (∀ (st : TrackerState) (sig : Signal) (oi : Option OrderInfo),
      (trackerAdd st sig oi).2 = [persistOf (trackerAdd st sig oi).1]) ∧
    (∀ (get : String → Option MarketView) (price : String → Option ℚ)
      (now : ℚ) (st : TrackerState),
      (trackerCheck get price now st).2.2 =
        [persistOf (trackerCheck get price now st).1]) ∧
    (∀ old new : List Char, old ≠ [] → new ≠ [] →
      ∃ s ∈ truncWriteCrashStates old new, s ≠ old ∧ s ≠ new) := by
  refine ⟨fun st sig oi => rfl, fun get price now st => rfl, ?_⟩
  intro old new hold hnew
  refine ⟨[], ?_, Ne.symm hold, Ne.symm hnew⟩
  simp only [truncWriteCrashStates, List.mem_cons, List.mem_map]
  refine Or.inr ⟨0, ?_, rfl⟩
  simp

/-- Witness for C5: at a concrete state the three parts hold, and the
crash state distinct from old and new exists for concrete contents. -/
theorem claim_C5_persistence_witness :
    (trackerAdd ⟨[], []⟩ sigRev0 none).2 =
      [persistOf (trackerAdd ⟨[], []⟩ sigRev0 none).1] ∧
    (∃ s ∈ truncWriteCrashStates "A".toList "BC".toList,
      s ≠ "A".toList ∧ s ≠ "BC".toList) :=
  ⟨claim_C5_persistence.1 ⟨[], []⟩ sigRev0 none,
    claim_C5_persistence.2.2 "A".toList "BC".toList (by decide) (by decide)⟩

theorem pyRound2_zero : pyRound2 0 = 0 := by
  have h := pyRound2_cents 0
  simpa using h

/-- **C8.** Settlement P&L and terminal transition: when `check` sees a
settled/finalized market for an open mention position, it moves the
position to the closed collection with status `settled` exactly once,
with P&L `count × (1 − entry price)` if NO (the held side) won and
`−(count × entry price)` if YES won; a repeated `check` changes neither
the status nor the P&L of the settled record. -/
theorem claim_C8_settlement
    (get : String → Option MarketView) (price : String → Option ℚ) (now : ℚ)
    (pos : Position) (closedL : List Position) (mstatus mresult : String)
    (hopen : pos.status = "open")
    (htype : pos.signalType = SigKind.mentionBuyNo)
    (hm : get pos.ticker = some ⟨mstatus, mresult⟩)
    (hsettled : mstatus = "settled" ∨ mstatus = "finalized")
    (c : ℤ)
    (hfp : pos.fillPrice.getD (pos.noPrice.getD 0) = (c : ℚ) / 100) :
    ∃ pos',
      (trackerCheck get price now ⟨[pos], closedL⟩).1 = ⟨[], closedL ++ [pos']⟩ ∧
      (trackerCheck get price now ⟨[pos], closedL⟩).2.1 = [("settled", pos')] ∧
      pos'.status = "settled" ∧ pos'.ticker = pos.ticker ∧
      pos'.settlePnl = some (
        if mresult = "no" then (pos.fillCount : ℚ) * (1 - (c : ℚ) / 100)
        else if mresult = "yes" then -((pos.fillCount : ℚ) * ((c : ℚ) / 100))
        else 0) ∧
      (trackerCheck get price now ⟨[], closedL ++ [pos']⟩).1 =
        ⟨[], closedL ++ [pos']⟩ ∧
      (trackerCheck get price now ⟨[], closedL ++ [pos']⟩).2.1 = [] := by
  have hpnl : pyRound2
      (if mresult = "no" then
        (pos.fillCount : ℚ) * (1 - pos.fillPrice.getD (pos.noPrice.getD 0))
      else if mresult = "yes" then
        -((pos.fillCount : ℚ) * pos.fillPrice.getD (pos.noPrice.getD 0))
      else 0) =
      (if mresult = "no" then (pos.fillCount : ℚ) * (1 - (c : ℚ) / 100)
      else if mresult = "yes" then -((pos.fillCount : ℚ) * ((c : ℚ) / 100))
      else 0) := by
    rw [hfp]
    split
    · have h1 : (pos.fillCount : ℚ) * (1 - (c : ℚ) / 100) =
          (((pos.fillCount : ℤ) * (100 - c) : ℤ) : ℚ) / 100 := by
        push_cast; ring
      rw [h1, pyRound2_cents]
    · split
      · have h2 : -((pos.fillCount : ℚ) * ((c : ℚ) / 100)) =
            (((-(pos.fillCount : ℤ) * c : ℤ)) : ℚ) / 100 := by
          push_cast; ring
        rw [h2, pyRound2_cents]
      · exact pyRound2_zero
  refine ⟨{ pos with
      settlePnl := some (if mresult = "no" then
          (pos.fillCount : ℚ) * (1 - (c : ℚ) / 100)
        else if mresult = "yes" then -((pos.fillCount : ℚ) * ((c : ℚ) / 100))
        else 0),
      result := some mresult, status := "settled", closeTime := some now },
    ?_, ?_, rfl, rfl, rfl, ?_, ?_⟩
  · simp only [trackerCheck, checkLoop, hopen, htype, hm, hpnl, if_true, ne_eq,
      eq_self_iff_true, not_true, if_false]
    rw [if_pos hsettled]
  · simp only [trackerCheck, checkLoop, hopen, htype, hm, hpnl, if_true, ne_eq,
      eq_self_iff_true, not_true, if_false]
    rw [if_pos hsettled]
  · simp [trackerCheck, checkLoop]
  · simp [trackerCheck, checkLoop]

/-- An open mention position holding 42 NO contracts bought at 7c. -/
def posMention0 : Position :=
  { posStub with
    ticker := "KXTRUMPMENTION-A", eventTicker := "KXTRUMPMENTION-E",
    signalType := SigKind.mentionBuyNo, holdUntilSettle := true,
    noPrice := some (7/100), fillPrice := some (7/100), fillCount := 42,
    betDollars := 294/100, isLive := true }

/-- Witness for C8: the settled market resolving NO turns the concrete
position into a settled record with P&L `42 × (1 − 0.07)`, and a second
`check` leaves everything unchanged. -/
theorem claim_C8_settlement_witness :
    ∃ pos',
      (trackerCheck (fun _ => some ⟨"settled", "no"⟩) (fun _ => none) 12345
        ⟨[posMention0], []⟩).1 = ⟨[], [] ++ [pos']⟩ ∧
      (trackerCheck (fun _ => some ⟨"settled", "no"⟩) (fun _ => none) 12345
        ⟨[posMention0], []⟩).2.1 = [("settled", pos')] ∧
      pos'.status = "settled" ∧ pos'.ticker = posMention0.ticker ∧
      pos'.settlePnl = some (
        if "no" = "no" then (posMention0.fillCount : ℚ) * (1 - ((7 : ℤ) : ℚ) / 100)
        else if "no" = "yes" then
          -((posMention0.fillCount : ℚ) * (((7 : ℤ) : ℚ) / 100))
        else 0) ∧
      (trackerCheck (fun _ => some ⟨"settled", "no"⟩) (fun _ => none) 12345
        ⟨[], [] ++ [pos']⟩).1 = ⟨[], [] ++ [pos']⟩ ∧
      (trackerCheck (fun _ => some ⟨"settled", "no"⟩) (fun _ => none) 12345
        ⟨[], [] ++ [pos']⟩).2.1 = [] :=
  claim_C8_settlement (fun _ => some ⟨"settled", "no"⟩) (fun _ => none) 12345
    posMention0 [] "settled" "no" rfl rfl rfl (Or.inl rfl) 7
    (by with_unfolding_all decide)

/-! ## Mention entry (`KalshiReversionScanner._execute_mention_entry`)
and the orchestrator cycle (`KalshiReversionScanner._cycle`). -/

/-- Python `d.get(k)`/`k in d` on an association list. -/
def alistLookup (k : String) : List (String × β) → Option β
  | [] => none
  | (k', v) :: t => if k' = k then some v else alistLookup k t

/-- A resting mention order record
(`self._resting_mention_orders[ticker]`). -/
structure RestingRec where
  orderId : ℕ
  placedTime : ℚ
  contracts : ℕ
  priceCents : ℤ
  sig : Signal
  deriving DecidableEq, Repr

/-- Gateway responses for one `_execute_mention_entry` run. -/
structure MentionOracle where
  book : Option Orderbook
  createOk : Bool
  orderId : ℕ
  quickStatus : Option OrderStatus
  placeTime : ℚ

/-- The outcome of `_execute_mention_entry`: no order info (`skip`),
an instant fill (returns order info), or an order left resting on the
book (returns `None` but registers the resting record). -/
inductive MentionOutcome where
  | skip
  | filled (info : OrderInfo)
  | resting (rr : RestingRec)
  deriving DecidableEq, Repr

/-- `_execute_mention_entry(sig)`: fixed `MENTION_BET_DOLLARS` bet,
buy NO at the book's best ask (capped at the per-category max NO price);
on a quick fill return the order info, otherwise leave the order
resting.  The resting-dict insertion performed inside the source method
is returned as the `resting` outcome and applied by the cycle model. -/
def execute_mention_entry (o : MentionOracle) (sig : Signal) :
    List ExecEv × MentionOutcome :=
  match o.book with
  | none => ([], MentionOutcome.skip)
  | some orderbook =>
    let yes_bids := orderbook.yes
    if yes_bids = [] then ([], MentionOutcome.skip)
    else
      let no_asks := sortByFst (yes_bids.map (fun b => ((100 : ℤ) - b.1, b.2)))
      if no_asks = [] then ([], MentionOutcome.skip)
      else
        let best_no_ask := (no_asks.headI).1
        let ticker_upper := sig.ticker.toUpper
        let is_ncaa_order := strContains ticker_upper "NCAAMENTION" ||
          strContains ticker_upper "NCAABMENTION"
        let max_no_order : ℚ := if is_ncaa_order then 25/100 else MENTION_MAX_NO_PRICE
        if (best_no_ask : ℚ) / 100 < MENTION_MIN_NO_PRICE ∨
            max_no_order < (best_no_ask : ℚ) / 100 then ([], MentionOutcome.skip)
        else
          let contracts := pyInt (MENTION_BET_DOLLARS / ((best_no_ask : ℚ) / 100))
          if contracts < 1 then ([], MentionOutcome.skip)
          else
            let bet_dollars := pyRound2 ((contracts : ℚ) * (best_no_ask : ℚ) / 100)
            if DRY_RUN then
              ([], MentionOutcome.filled
                ⟨0, (best_no_ask : ℚ) / 100, contracts.toNat, bet_dollars, 0, true⟩)
            else
              let max_cents : ℤ := pyInt (max_no_order * 100)
              let buy_price := min best_no_ask max_cents
              if o.createOk = false then ([], MentionOutcome.skip)
              else
                let evs := [ExecEv.place o.orderId contracts.toNat buy_price]
                match o.quickStatus with
                | some st =>
                  if 0 < st.quantityFilled then
                    let remaining := st.remainingCount.getD 0
                    let avg := st.averageFillPrice.getD buy_price
                    let actual := pyRound2 ((st.quantityFilled : ℚ) * (avg : ℚ) / 100)
                    (evs ++ (if 0 < remaining then [ExecEv.cancel o.orderId] else []),
                      MentionOutcome.filled
                        ⟨o.orderId, (avg : ℚ) / 100, st.quantityFilled, actual, 0, false⟩)
                  else
                    (evs, MentionOutcome.resting
                      ⟨o.orderId, o.placeTime, contracts.toNat, buy_price, sig⟩)
                | none =>
                  (evs, MentionOutcome.resting
                    ⟨o.orderId, o.placeTime, contracts.toNat, buy_price, sig⟩)

/-- The scanner's mutable state relevant to position bookkeeping:
the tracker, `self._resting_mention_orders`, and the mention detector's
cooldown ledger (`self.mention_detector.signal_history`). -/
structure ScannerState where
  tracker : TrackerState
  resting : List (String × RestingRec)
  mentionHistory : List (String × ℚ)
  deriving DecidableEq, Repr

/-- `reversion_allowed = False` — hardcoded at the top of `_cycle`
("Disabled — focusing capital on mention strategy"). -/
def reversionAllowed : Bool := false

/-- The reversion-signal block of `_cycle` (lines 2186–2206): per signal,
skip on an existing open position, skip on the per-event cap, execute
only when allowed, and `add` only when order info came back. -/
def reversionLoop (canTrade lowBalance : Bool)
    (execRes : Signal → Option OrderInfo) (st : ScannerState) :
    List Signal → ScannerState
  | [] => st
  | sig :: rest =>
    if st.tracker.has_open_ticker sig.ticker then
      reversionLoop canTrade lowBalance execRes st rest
    else
      let exposure := st.tracker.event_exposure sig.eventTicker
      let order_info :=
        if MAX_BET_DOLLARS ≤ exposure ∧ sig.eventTicker ≠ "" then none
        else if reversionAllowed ∧ canTrade ∧ ¬ lowBalance then execRes sig
        else none
      match order_info with
      | some oi =>
        reversionLoop canTrade lowBalance execRes
          { st with tracker := (trackerAdd st.tracker sig (some oi)).1 } rest
      | none => reversionLoop canTrade lowBalance execRes st rest

/-- Per-mention-signal environment inside one cycle. -/
structure MentionEnv where
  canTrade : Bool
  lowBalance : Bool
  oracle : MentionOracle
  cooldownTime : ℚ

/-- The mention-signal block of `_cycle` (lines 2310–2358): position and
resting caps break the loop; duplicate-ticker, pending-resting-order,
event-exposure and low-balance checks skip the signal; a fill adds the
position and records the cooldown; a resting order registers the resting
record.  Returns the new state and the concatenated executor events. -/
def mentionLoop (now : ℚ) (st : ScannerState) (mentionCount : ℕ) :
    List (Signal × MentionEnv) → ScannerState × List ExecEv
  | [] => (st, [])
  | (sig, env) :: rest =>
    if ¬ (mentionCount < MENTION_MAX_POSITIONS) then (st, [])
    else if MENTION_MAX_RESTING_ORDERS ≤ st.resting.length then (st, [])
    else if st.tracker.has_open_ticker sig.ticker then mentionLoop now st mentionCount rest
    else if (alistLookup sig.ticker st.resting).isSome then mentionLoop now st mentionCount rest
    else if sig.eventTicker ≠ "" ∧
        MENTION_MAX_EVENT_DOLLARS ≤ st.tracker.event_exposure sig.eventTicker then
      mentionLoop now st mentionCount rest
    else if env.lowBalance then mentionLoop now st mentionCount rest
    else
      let r := if env.canTrade then execute_mention_entry env.oracle sig
               else ([], MentionOutcome.skip)
      match r with
      | (evs, MentionOutcome.filled info) =>
        let st' : ScannerState :=
          { tracker := (trackerAdd st.tracker sig (some info)).1,
            resting := st.resting,
            mentionHistory := alistSet sig.ticker env.cooldownTime st.mentionHistory }
        let rest' := mentionLoop now st' (mentionCount + 1) rest
        (rest'.1, evs ++ rest'.2)
      | (evs, MentionOutcome.resting rr) =>
        let st' := { st with resting := alistSet sig.ticker rr st.resting }
        let rest' := mentionLoop now st' mentionCount rest
        (rest'.1, evs ++ rest'.2)
      | (evs, MentionOutcome.skip) =>
        let rest' := mentionLoop now st mentionCount rest
        (rest'.1, evs ++ rest'.2)

/-- `_check_resting_mention_orders` (lines 2393–2475): per resting order,
a missing status response cancels it once old enough; a fill adds a
position for the recorded signal and removes the record; a stale order
is canceled and removed; otherwise it stays. -/
def restingCheckLoop (get : ℕ → Option OrderStatus) (now : ℚ) (tr : TrackerState) :
    List (String × RestingRec) → TrackerState × List (String × RestingRec)
  | [] => (tr, [])
  | (t, rr) :: rest =>
    let age := now - rr.placedTime
    match get rr.orderId with
    | none =>
      if MENTION_ORDER_REST_SECONDS < age then restingCheckLoop get now tr rest
      else
        let r := restingCheckLoop get now tr rest
        (r.1, (t, rr) :: r.2)
    | some st =>
      if 0 < st.quantityFilled then
        let avg := st.averageFillPrice.getD rr.priceCents
        let actual := pyRound2 ((st.quantityFilled : ℚ) * (avg : ℚ) / 100)
        let info : OrderInfo :=
          ⟨rr.orderId, (avg : ℚ) / 100, st.quantityFilled, actual, 0, false⟩
        restingCheckLoop get now (trackerAdd tr rr.sig (some info)).1 rest
      else if MENTION_ORDER_REST_SECONDS < age then restingCheckLoop get now tr rest
      else
        let r := restingCheckLoop get now tr rest
        (r.1, (t, rr) :: r.2)

/-- One position-mutating step of the orchestrator cycle. -/
inductive CycleStep where
  | reversionSignals (canTrade lowBalance : Bool)
      (execRes : Signal → Option OrderInfo) (sigs : List Signal)
  | restingCheck (get : ℕ → Option OrderStatus) (now : ℚ)
  | mentionSignals (now : ℚ) (batch : List (Signal × MentionEnv))
  | positionsCheck (get : String → Option MarketView)
      (price : String → Option ℚ) (now : ℚ)

/-- Apply one cycle step, with the mention-position budget computed as
in the source
(`self.positions.count('mention_buy_no') + len(self._resting_mention_orders)`). -/
def applyStep (st : ScannerState) : CycleStep → ScannerState
  | CycleStep.reversionSignals ct lb ex sigs => reversionLoop ct lb ex st sigs
  | CycleStep.restingCheck get now =>
    let r := restingCheckLoop get now st.tracker st.resting
    { st with tracker := r.1, resting := r.2 }
  | CycleStep.mentionSignals now batch =>
    (mentionLoop now st
      (st.tracker.countType SigKind.mentionBuyNo + st.resting.length) batch).1
  | CycleStep.positionsCheck get price now =>
    { st with tracker := (trackerCheck get price now st.tracker).1 }

/-- A full run of the orchestrator: any sequence of cycle steps. -/
def applySteps (st : ScannerState) : List CycleStep → ScannerState
  | [] => st
  | s :: rest => applySteps (applyStep st s) rest

/-- The scanner's state at startup with no persisted positions. -/
def initialScannerState : ScannerState := ⟨⟨[], []⟩, [], []⟩

/-- The tickers of the tracker's position list. -/
def openTickers (tr : TrackerState) : List String :=
  tr.positions.map Position.ticker

/-! ## Association-list and tracker lemmas for the cycle invariant -/

theorem alistLookup_none_not_mem {k : String} :
    ∀ {l : List (String × β)}, alistLookup k l = none → k ∉ l.map Prod.fst := by
  intro l
  induction l with
  | nil => intro _; simp
  | cons p t ih =>
    obtain ⟨k', v⟩ := p
    intro h hm
    by_cases hk : k' = k
    · simp [alistLookup, hk] at h
    · simp only [alistLookup, hk, if_false] at h
      simp only [List.map_cons, List.mem_cons] at hm
      rcases hm with hm | hm
      · exact hk hm.symm
      · exact ih h hm

theorem mem_alistSet {k : String} {v : β} :
    ∀ {l : List (String × β)} {p : String × β},
      p ∈ alistSet k v l → p = (k, v) ∨ p ∈ l := by
  intro l
  induction l with
  | nil => intro p hp; simp [alistSet] at hp; exact Or.inl hp
  | cons q t ih =>
    obtain ⟨k', v'⟩ := q
    intro p hp
    by_cases h : k' = k
    · simp [alistSet, h] at hp
      rcases hp with rfl | hp
      · exact Or.inl rfl
      · exact Or.inr (List.mem_cons_of_mem _ hp)
    · simp [alistSet, h] at hp
      rcases hp with rfl | hp
      · exact Or.inr (List.mem_cons_self _ _)
      · rcases ih hp with h' | h'
        · exact Or.inl h'
        · exact Or.inr (List.mem_cons_of_mem _ h')

theorem keys_alistSet_of_not_mem {k : String} {v : β} :
    ∀ {l : List (String × β)}, k ∉ l.map Prod.fst →
      (alistSet k v l).map Prod.fst = l.map Prod.fst ++ [k] := by
  intro l
  induction l with
  | nil => intro _; simp [alistSet]
  | cons q t ih =>
    obtain ⟨k', v'⟩ := q
    intro hk
    simp only [List.map_cons, List.mem_cons] at hk
    push_neg at hk
    simp [alistSet, Ne.symm hk.1, ih hk.2]

theorem openTickers_trackerAdd (tr : TrackerState) (sig : Signal)
    (oi : Option OrderInfo) :
    openTickers (trackerAdd tr sig oi).1 = openTickers tr ++ [sig.ticker] := by
  simp [trackerAdd, openTickers]

theorem has_open_ticker_iff (st : TrackerState) (t : String) :
    st.has_open_ticker t = true ↔ t ∈ openTickers st := by
  simp [TrackerState.has_open_ticker, openTickers, List.any_eq_true]

theorem checkLoop_stillOpen_sublist (get : String → Option MarketView)
    (price : String → Option ℚ) (now : ℚ) :
    ∀ l : List Position, (checkLoop get price now l).1.Sublist l := by
  intro l
  induction l with
  | nil => simp [checkLoop]
  | cons pos rest ih =>
    rcases hr : checkLoop get price now rest with ⟨s, c, a⟩
    rw [hr] at ih
    simp only [checkLoop, hr]
    repeat' split
    all_goals simp only
    all_goals first
      | exact List.Sublist.cons _ ih
      | exact List.Sublist.cons₂ _ ih

theorem execute_mention_entry_skip_events (o : MentionOracle) (sig : Signal)
    {evs : List ExecEv} (h : execute_mention_entry o sig = (evs, MentionOutcome.skip)) :
    evs = [] := by
  unfold execute_mention_entry at h
  simp only [DRY_RUN, Bool.false_eq_true, if_false] at h
  repeat' split at h
  all_goals injection h with h1 h2
  all_goals first
    | exact h1.symm
    | exact MentionOutcome.noConfusion h2

theorem execute_mention_entry_filled_place (o : MentionOracle) (sig : Signal)
    {evs : List ExecEv} {info : OrderInfo}
    (h : execute_mention_entry o sig = (evs, MentionOutcome.filled info)) :
    ∃ a c pr, ExecEv.place a c pr ∈ evs := by
  unfold execute_mention_entry at h
  simp only [DRY_RUN, Bool.false_eq_true, if_false] at h
  repeat' split at h
  all_goals injection h with h1 h2
  all_goals first
    | exact MentionOutcome.noConfusion h2
    | exact h1 ▸ ⟨o.orderId, _, _, List.mem_append_left _ (List.mem_cons_self _ _)⟩

theorem execute_mention_entry_resting_sig (o : MentionOracle) (sig : Signal)
    {evs : List ExecEv} {rr : RestingRec}
    (h : execute_mention_entry o sig = (evs, MentionOutcome.resting rr)) :
    rr.sig = sig := by
  unfold execute_mention_entry at h
  simp only [DRY_RUN, Bool.false_eq_true, if_false] at h
  repeat' split at h
  all_goals injection h with h1 h2
  all_goals first
    | exact MentionOutcome.noConfusion h2
    | (injection h2 with h3; exact (congrArg RestingRec.sig h3).symm)

/-- The cycle-state invariant behind C1: open-position tickers are
pairwise distinct, resting-order tickers are distinct, the two sets are
disjoint, and every resting record carries the signal of its own
ticker. -/
def ScannerInv (st : ScannerState) : Prop :=
  (openTickers st.tracker).Nodup ∧
  (∀ k ∈ st.resting.map Prod.fst, k ∉ openTickers st.tracker) ∧
  (st.resting.map Prod.fst).Nodup ∧
  (∀ p ∈ st.resting, p.2.sig.ticker = p.1)

theorem reversionLoop_eq (ct lb : Bool) (ex : Signal → Option OrderInfo) :
    ∀ (sigs : List Signal) (st : ScannerState),
      reversionLoop ct lb ex st sigs = st := by
  intro sigs
  induction sigs with
  | nil => intro st; rfl
  | cons sig rest ih =>
    intro st
    simp only [reversionLoop, reversionAllowed, Bool.false_eq_true, false_and,
      if_false, ite_self]
    exact ih st

/-- The resting-order reconciliation preserves ticker discipline: the
resulting open tickers stay distinct and come from the old open tickers
or the resting keys; the kept resting records are a subset of the old
ones with distinct keys, disjoint from the new open tickers. -/
theorem restingCheckLoop_spec (get : ℕ → Option OrderStatus) (now : ℚ) :
    ∀ (l : List (String × RestingRec)) (tr : TrackerState),
      (openTickers tr).Nodup →
      (l.map Prod.fst).Nodup →
      (∀ k ∈ l.map Prod.fst, k ∉ openTickers tr) →
      (∀ p ∈ l, p.2.sig.ticker = p.1) →
      (openTickers (restingCheckLoop get now tr l).1).Nodup ∧
      (∀ k ∈ openTickers (restingCheckLoop get now tr l).1,
        k ∈ openTickers tr ∨ k ∈ l.map Prod.fst) ∧
      (∀ p ∈ (restingCheckLoop get now tr l).2, p ∈ l) ∧
      ((restingCheckLoop get now tr l).2.map Prod.fst).Nodup ∧
      (∀ k ∈ (restingCheckLoop get now tr l).2.map Prod.fst,
        k ∉ openTickers (restingCheckLoop get now tr l).1) := by
  intro l
  induction l with
  | nil =>
    intro tr h1 _ _ _
    exact ⟨h1, fun k hk => Or.inl hk, by simp [restingCheckLoop],
      by simp [restingCheckLoop], by simp [restingCheckLoop]⟩
  | cons hd rest ih =>
    obtain ⟨t, rr⟩ := hd
    intro tr h1 h2 h3 h4
    have h2' : (rest.map Prod.fst).Nodup := by
      simp only [List.map_cons, List.nodup_cons] at h2
      exact h2.2
    have ht : t ∉ rest.map Prod.fst := by
      simp only [List.map_cons, List.nodup_cons] at h2
      exact h2.1
    have h3head : t ∉ openTickers tr := h3 t (by simp)
    have h3' : ∀ k ∈ rest.map Prod.fst, k ∉ openTickers tr :=
      fun k hk => h3 k (by simp [hk])
    have h4' : ∀ p ∈ rest, p.2.sig.ticker = p.1 :=
      fun p hp => h4 p (List.mem_cons_of_mem _ hp)
    have h4head : rr.sig.ticker = t := h4 (t, rr) (List.mem_cons_self _ _)
    simp only [restingCheckLoop]
    split
    -- get returned nothing
    · split
      · -- expired: dropped
        obtain ⟨a, b, c, d, e⟩ := ih tr h1 h2' h3' h4'
        exact ⟨a, fun k hk => (b k hk).imp id (fun h' => by simp [h']),
          fun p hp => List.mem_cons_of_mem _ (c p hp), d, e⟩
      · -- kept
        obtain ⟨a, b, c, d, e⟩ := ih tr h1 h2' h3' h4'
        refine ⟨a, fun k hk => (b k hk).imp id (fun h' => by simp [h']),
          ?_, ?_, ?_⟩
        · intro p hp
          rcases List.mem_cons.mp hp with rfl | hp
          · exact List.mem_cons_self _ _
          · exact List.mem_cons_of_mem _ (c p hp)
        · simp only [List.map_cons, List.nodup_cons]
          refine ⟨?_, d⟩
          intro hmem
          obtain ⟨p, hp, hpt⟩ := List.mem_map.mp hmem
          have : p ∈ rest := c p hp
          exact ht (List.mem_map.mpr ⟨p, this, hpt⟩)
        · intro k hk
          simp only [List.map_cons, List.mem_cons] at hk
          rcases hk with rfl | hk
          · intro hko
            rcases b k hko with h' | h'
            · exact h3head h'
            · exact ht h'
          · exact e k hk
    · -- get returned a status
      split
      · -- filled: position added for the resting signal, record removed
        have h1' : (openTickers tr ++ [t]).Nodup := by
          rw [List.nodup_append]
          exact ⟨h1, List.nodup_singleton t,
            fun a ha (hb : a ∈ [t]) => by
              rw [List.mem_singleton] at hb
              exact h3head (hb ▸ ha)⟩
        have h3'' : ∀ k ∈ rest.map Prod.fst,
            k ∉ openTickers tr ++ [t] := by
          intro k hk hmem
          rcases List.mem_append.mp hmem with h' | h'
          · exact h3' k hk h'
          · rw [List.mem_singleton] at h'
            exact ht (h' ▸ hk)
        have key : ∀ tr1 : TrackerState,
            openTickers tr1 = openTickers tr ++ [t] →
            (openTickers (restingCheckLoop get now tr1 rest).1).Nodup ∧
            (∀ k ∈ openTickers (restingCheckLoop get now tr1 rest).1,
              k ∈ openTickers tr ∨ k ∈ ((t, rr) :: rest).map Prod.fst) ∧
            (∀ p ∈ (restingCheckLoop get now tr1 rest).2,
              p ∈ (t, rr) :: rest) ∧
            ((restingCheckLoop get now tr1 rest).2.map Prod.fst).Nodup ∧
            (∀ k ∈ (restingCheckLoop get now tr1 rest).2.map Prod.fst,
              k ∉ openTickers (restingCheckLoop get now tr1 rest).1) := by
          intro tr1 htr1
          obtain ⟨a, b, c, d, e⟩ := ih tr1 (htr1 ▸ h1') h2'
            (fun k hk => htr1 ▸ h3'' k hk) h4'
          refine ⟨a, ?_, fun p hp => List.mem_cons_of_mem _ (c p hp), d, e⟩
          intro k hk
          rcases b k hk with h' | h'
          · rw [htr1] at h'
            rcases List.mem_append.mp h' with h'' | h''
            · exact Or.inl h''
            · rw [List.mem_singleton] at h''
              exact Or.inr (by simp [h''])
          · exact Or.inr (by simp [h'])
        exact key _ (by rw [openTickers_trackerAdd, h4head])
      · split
        · -- expired
          obtain ⟨a, b, c, d, e⟩ := ih tr h1 h2' h3' h4'
          exact ⟨a, fun k hk => (b k hk).imp id (fun h' => by simp [h']),
            fun p hp => List.mem_cons_of_mem _ (c p hp), d, e⟩
        · -- kept
          obtain ⟨a, b, c, d, e⟩ := ih tr h1 h2' h3' h4'
          refine ⟨a, fun k hk => (b k hk).imp id (fun h' => by simp [h']),
            ?_, ?_, ?_⟩
          · intro p hp
            rcases List.mem_cons.mp hp with rfl | hp
            · exact List.mem_cons_self _ _
            · exact List.mem_cons_of_mem _ (c p hp)
          · simp only [List.map_cons, List.nodup_cons]
            refine ⟨?_, d⟩
            intro hmem
            obtain ⟨p, hp, hpt⟩ := List.mem_map.mp hmem
            have : p ∈ rest := c p hp
            exact ht (List.mem_map.mpr ⟨p, this, hpt⟩)
          · intro k hk
            simp only [List.map_cons, List.mem_cons] at hk
            rcases hk with rfl | hk
            · intro hko
              rcases b k hko with h' | h'
              · exact h3head h'
              · exact ht h'
            · exact e k hk

/-- The mention-signal block preserves the bookkeeping invariant: the
duplicate-ticker and pending-resting-order guards keep open tickers and
resting keys distinct and mutually disjoint. -/
theorem mentionLoop_inv (now : ℚ) :
    ∀ (batch : List (Signal × MentionEnv)) (st : ScannerState) (cnt : ℕ),
      ScannerInv st → ScannerInv (mentionLoop now st cnt batch).1 := by
  intro batch
  induction batch with
  | nil => intro st cnt h; exact h
  | cons p rest ih =>
    obtain ⟨sig, env⟩ := p
    intro st cnt h
    obtain ⟨hA, hB, hC, hD⟩ := h
    simp only [mentionLoop]
    split
    · exact ⟨hA, hB, hC, hD⟩
    · split
      · exact ⟨hA, hB, hC, hD⟩
      · split
        · exact ih st cnt ⟨hA, hB, hC, hD⟩
        · split
          · exact ih st cnt ⟨hA, hB, hC, hD⟩
          · split
            · exact ih st cnt ⟨hA, hB, hC, hD⟩
            · split
              · exact ih st cnt ⟨hA, hB, hC, hD⟩
              · rename_i hcap hrl hopen hlook hev hlb
                have hno : sig.ticker ∉ openTickers st.tracker := fun hm =>
                  hopen ((has_open_ticker_iff _ _).mpr hm)
                have hlk : alistLookup sig.ticker st.resting = none := by
                  rcases hl : alistLookup sig.ticker st.resting with _ | v
                  · rfl
                  · exact absurd (by simp [hl]) hlook
                have hkeys : sig.ticker ∉ st.resting.map Prod.fst :=
                  alistLookup_none_not_mem hlk
                split
                · -- fill: position added, cooldown recorded
                  rename_i evs info heq
                  apply ih
                  refine ⟨?_, ?_, hC, hD⟩
                  · rw [openTickers_trackerAdd, List.nodup_append]
                    exact ⟨hA, List.nodup_singleton _,
                      fun a ha (hb : a ∈ [sig.ticker]) => by
                        rw [List.mem_singleton] at hb
                        exact hno (hb ▸ ha)⟩
                  · intro k hk
                    rw [openTickers_trackerAdd]
                    intro hmem
                    rcases List.mem_append.mp hmem with h' | h'
                    · exact hB k hk h'
                    · rw [List.mem_singleton] at h'
                      exact hkeys (h' ▸ hk)
                · -- resting: the record is registered under the ticker
                  rename_i evs rr heq
                  have hsig : rr.sig = sig := by
                    by_cases hct : env.canTrade = true
                    · rw [if_pos hct] at heq
                      exact execute_mention_entry_resting_sig env.oracle sig heq
                    · rw [if_neg hct] at heq
                      injection heq with h1 h2
                      exact MentionOutcome.noConfusion h2
                  apply ih
                  refine ⟨hA, ?_, ?_, ?_⟩
                  · intro k hk
                    rw [keys_alistSet_of_not_mem hkeys] at hk
                    rcases List.mem_append.mp hk with h' | h'
                    · exact hB k h'
                    · rw [List.mem_singleton] at h'
                      exact h' ▸ hno
                  · rw [keys_alistSet_of_not_mem hkeys, List.nodup_append]
                    exact ⟨hC, List.nodup_singleton _,
                      fun a ha (hb : a ∈ [sig.ticker]) => by
                        rw [List.mem_singleton] at hb
                        exact hkeys (hb ▸ ha)⟩
                  · intro q hq
                    rcases mem_alistSet hq with rfl | hq'
                    · simpa using congrArg Signal.ticker hsig
                    · exact hD q hq'
                · -- skip: state unchanged
                  exact ih st cnt ⟨hA, hB, hC, hD⟩

/-- Each cycle step preserves the bookkeeping invariant. -/
theorem applyStep_inv (st : ScannerState) (s : CycleStep)
    (h : ScannerInv st) : ScannerInv (applyStep st s) := by
  cases s with
  | reversionSignals ct lb ex sigs =>
    rw [applyStep, reversionLoop_eq]
    exact h
  | restingCheck get now =>
    obtain ⟨hA, hB, hC, hD⟩ := h
    obtain ⟨a, b, c, d, e⟩ :=
      restingCheckLoop_spec get now st.resting st.tracker hA hC hB hD
    exact ⟨a, e, d, fun p hp => hD p (c p hp)⟩
  | mentionSignals now batch =>
    exact mentionLoop_inv now batch st _ h
  | positionsCheck get price now =>
    obtain ⟨hA, hB, hC, hD⟩ := h
    have hsub : (openTickers
        ⟨(checkLoop get price now st.tracker.positions).1,
          (checkLoop get price now st.tracker.positions).2.1⟩).Sublist
        (openTickers st.tracker) :=
      (checkLoop_stillOpen_sublist get price now st.tracker.positions).map _
    refine ⟨hA.sublist hsub, ?_, hC, hD⟩
    intro k hk hmem
    exact hB k hk (hsub.subset hmem)

/-- The invariant holds along every run of cycle steps from startup. -/
theorem applySteps_inv :
    ∀ (steps : List CycleStep) (st : ScannerState),
      ScannerInv st → ScannerInv (applySteps st steps) := by
  intro steps
  induction steps with
  | nil => intro st h; exact h
  | cons s rest ih => intro st h; exact ih _ (applyStep_inv st s h)

/-- C1: at most one open Position per ticker at all times — over any
sequence of orchestrator cycle steps from startup (reversion signals,
resting-mention-order reconciliation including fills, mention signals,
and position checks), the tracker's open-positions list never contains
two positions with the same ticker. -/
theorem claim_C1_unique_open_ticker (steps : List CycleStep) :
    (openTickers (applySteps initialScannerState steps).tracker).Nodup :=
  (applySteps_inv steps initialScannerState
    (by refine ⟨?_, ?_, ?_, ?_⟩ <;>
      simp [initialScannerState, openTickers])).1

/-- C7: the mention cooldown ledger is written only after placement —
processing a mention signal either leaves the cooldown ledger unchanged,
or records the cooldown for the signal's ticker while the executed events
contain an actual order placement. -/
theorem claim_C7_cooldown_after_placement (now : ℚ) (st : ScannerState)
    (cnt : ℕ) (sig : Signal) (env : MentionEnv) :
    (mentionLoop now st cnt [(sig, env)]).1.mentionHistory = st.mentionHistory ∨
    ((mentionLoop now st cnt [(sig, env)]).1.mentionHistory =
        alistSet sig.ticker env.cooldownTime st.mentionHistory ∧
      ∃ a c p, ExecEv.place a c p ∈ (mentionLoop now st cnt [(sig, env)]).2) := by
  simp only [mentionLoop]
  split
  · exact Or.inl rfl
  · split
    · exact Or.inl rfl
    · split
      · exact Or.inl rfl
      · split
        · exact Or.inl rfl
        · split
          · exact Or.inl rfl
          · split
            · exact Or.inl rfl
            · split
              · -- fill: ledger written, place event present
                rename_i evs info heq
                refine Or.inr ⟨rfl, ?_⟩
                have hct : env.canTrade = true := by
                  by_contra hc
                  rw [if_neg hc] at heq
                  injection heq with h1 h2
                  exact MentionOutcome.noConfusion h2
                rw [if_pos hct] at heq
                obtain ⟨a, c, p, hp⟩ :=
                  execute_mention_entry_filled_place env.oracle sig heq
                exact ⟨a, c, p, by simp [mentionLoop, hp]⟩
              · -- resting order: ledger untouched
                exact Or.inl rfl
              · -- skip: ledger untouched
                exact Or.inl rfl

/-! ## Detectors

`KalshiReversionDetector.detect`, `ImpliedProbDetector.detect` and
`MentionBuyNoDetector.detect`, embedded with their `signal_history`
dict as an explicit association list.  The first two thread the history
through (they assign `self.signal_history[key] = now_ts` and `_save()`
inside `detect`); each `_save` is recorded as a snapshot of the dict it
wrote.  The mention detector only reads its history, so its embedding
takes the history as a read-only argument and returns the signals. -/

/-- A trade dict as consumed by `KalshiReversionDetector.detect`
(`t.get('ticker','')`, `t.get('count',0)`, `t.get('taker_side')`,
`t.get('created_time','')`, `t.get('yes_price_dollars')`; a missing key
is the default, `yesPriceDollars = none` is a missing price). -/
structure Trade where
  ticker : String
  count : ℤ
  takerSide : String
  createdTime : String
  yesPriceDollars : Option ℚ
  deriving DecidableEq, Repr, Inhabited

/-- `p = t.get('yes_price_dollars'); if p: ... float(p)` — the price is
kept when present and truthy (nonzero). -/
def truthyPrice (t : Trade) : Option ℚ :=
  match t.yesPriceDollars with
  | some p => if p = 0 then none else some p
  | none => none

/-- A market dict (fields read by the detectors): `ticker`,
`title` (`none` = key missing), `event_ticker`, `yes_bid`, `yes_ask`,
`last_price` (`none` = missing/null; numeric fields arrive as ints),
and `closeTs` = the parsed `close_time` timestamp (`none` when the field
is missing or `datetime.fromisoformat` raises). -/
structure MarketRec where
  ticker : String
  title : Option String
  eventTicker : String
  yesBid : Option ℤ
  yesAsk : Option ℤ
  lastPrice : Option ℤ
  closeTs : Option ℚ
  deriving DecidableEq, Repr, Inhabited

/-- One entry of `client.get_milestones()`: the event's `start_ts`. -/
structure Milestone where
  startTs : ℚ
  deriving DecidableEq, Repr, Inhabited

/-- The `KalshiClient` as seen by the detectors: the category cache and
the gateway responses (`get_market`, `get_event_info(...)['category']`).
The source's `is_allowed_ticker` writes the computed category back into
`category_cache`; the write stores exactly the value the cache-miss path
recomputes, so lookups are modelled against a fixed cache. -/
structure KalshiClientModel where
  categoryCache : List (String × String)
  getMarket : String → MarketRec
  eventCategory : String → String
  milestones : String → Option Milestone

/-- `EXCLUDED_PREFIXES` (module config). -/
def EXCLUDED_PREFIXES : List String :=
  ["KXNCAAMB", "KXNCAAFB", "KXNCAAWB", "KXNCAAB",
   "KXNFL", "KXNBA", "KXNHL", "KXMLB",
   "KXSOCCER", "KXUFC", "KXTENNIS", "KXCRICKET", "KXHIGHLAX",
   "KXMVESPORTS", "KXVALORANT", "KXCS2",
   "KXATPMATCH", "KXWTAMATCH", "KXDPWORLDTOUR", "KXPGA",
   "KXLALIGA", "KXUCL", "KXARGLNB", "KXSB",
   "KXNEXTTEAMNFL", "KXNBAMVP", "KXNBAWINS", "KXNBATOTAL",
   "KXATPCHALLENGER", "KXDOTA2", "KXLOLMAP", "KXLOLGAME",
   "KXSERIEASPREAD", "KXSERIEATOTAL", "KXR6GAME",
   "KXSCOTTISHPREM", "KXAHLGAME", "KXKHLGAME",
   "KXWOCURL", "KXEFLCHAMPIONSHIP", "KXLIGUE1",
   "KXSWISSLEAGUE", "KXWOFREESKI", "KXWOSBOARD",
   "KXEPLBTTS", "KXNASCAR", "KXAAAGASW",
   "KXNEXTTEAMNBA", "KXLPGA", "KXWNBA", "KXMLS",
   "KXNHLPROP", "KXAFCCL", "KXAFCCLGAME",
   "KXWTACHALLENGER", "KXWOMHOCKEY", "KXALEAGUE",
   "KXWOSSKATE", "KXWOSHORT", "KXWOSPEED",
   "KXWOFSKATE", "KXWOBIATHLON", "KXWOBOB", "KXWOLUGE",
   "KXWOXC", "KXWOCOMBI", "KXWOJUMP", "KXWOALPINE",
   "KXBTC", "KXETH", "KXSOL", "KXCRYPTO", "KXDOGE", "KXXRP",
   "KXINX", "KXNASDAQ", "KXSP5", "KXWTI", "KXINXU"]

/-- `EXCLUDED_CATEGORIES = {'Sports', 'Crypto', 'Financials'}`. -/
def EXCLUDED_CATEGORIES : List String := ["Sports", "Crypto", "Financials"]

/-- `MENTION_KEYWORDS` (module config, used by the implied-prob filter). -/
def MENTION_KEYWORDS : List String :=
  ["what will", "say during", "say at", "say in", "say on",
   "mention", "announce", "announcer", "commentator",
   "play by play", "color commentary", "broadcast",
   "press conference", "speech", "address", "interview",
   "debate", "ceremony", "halftime show", "opening remarks",
   "state of the", "remarks at", "remarks during"]

/-- `IMPL_EXCLUDED_PREFIXES` (module config). -/
def IMPL_EXCLUDED_PREFIXES : List String :=
  ["KXMVESPORTS", "KXMULTIGAME", "KXPARLAY", "KXCOMBO",
   "KXMVESPORTSMULTIGAME"]

/-- The `prop_keywords` list local to `ImpliedProbDetector.detect`. -/
def prop_keywords : List String :=
  ["over ", "under ", "by over", "by under", "spread",
   "total", "points", "1h ", "1st half", "2nd half",
   "first half", "second half", "quarter", "inning",
   "half time", "halftime"]

/-- The crypto/financials ticker filter local to
`ImpliedProbDetector.detect`. -/
def cryptoFinTickers : List String :=
  ["KXBTC", "KXETH", "KXSOL", "KXCRYPTO", "KXDOGE", "KXXRP",
   "KXINX", "KXNASDAQ", "KXSP5", "KXWTI", "KXINXU"]

/-- `KalshiClient.is_allowed_ticker` (lines 395–413): block tickers
containing `MENTION`, the excluded prefixes, and excluded categories
(from the cache, else from the event info when an event ticker exists). -/
def KalshiClientModel.is_allowed_ticker (c : KalshiClientModel)
    (ticker : String) : Bool :=
  let ticker_upper := ticker.toUpper
  if strContains ticker_upper "MENTION" then false
  else if EXCLUDED_PREFIXES.any (fun p => ticker_upper.startsWith p.toUpper) then
    false
  else
    match alistLookup ticker c.categoryCache with
    | some cat => ! EXCLUDED_CATEGORIES.contains cat
    | none =>
      let market := c.getMarket ticker
      let event_ticker := market.eventTicker
      if event_ticker ≠ "" then
        if EXCLUDED_CATEGORIES.contains (c.eventCategory event_ticker) then false
        else true
      else true

/-- The `by_ticker` grouping loop of `KalshiReversionDetector.detect`
(dict of insertion-ordered lists; trades without a ticker are skipped). -/
def groupByTicker (trades : List Trade) : List (String × List Trade) :=
  trades.foldl
    (fun acc t => if t.ticker = "" then acc else alistAppend t.ticker t acc) []

/-- The `prices_start` collection of lines 791–798: trades sorted by
`created_time`, the first `n5 = max(3, len // 5)` of them, truthy
`yes_price_dollars` values. -/
def reversionPricesStart (ticker_trades : List Trade) : List ℚ :=
  let sorted_trades := sortByKey Trade.createdTime ticker_trades
  let n5 := max 3 (sorted_trades.length / 5)
  (sorted_trades.take n5).filterMap truthyPrice

/-- The `prices_end` collection of lines 791–803 (`sorted_trades[-n5:]`). -/
def reversionPricesEnd (ticker_trades : List Trade) : List ℚ :=
  let sorted_trades := sortByKey Trade.createdTime ticker_trades
  let n5 := max 3 (sorted_trades.length / 5)
  (lastN n5 sorted_trades).filterMap truthyPrice

/-- `p_start = sum(prices_start) / len(prices_start)` (line 807). -/
def reversionPStart (ticker_trades : List Trade) : ℚ :=
  (reversionPricesStart ticker_trades).sum /
    ((reversionPricesStart ticker_trades).length : ℚ)

/-- `p_end = sum(prices_end) / len(prices_end)` (line 808). -/
def reversionPEnd (ticker_trades : List Trade) : ℚ :=
  (reversionPricesEnd ticker_trades).sum /
    ((reversionPricesEnd ticker_trades).length : ℚ)

/-- The per-ticker body of `KalshiReversionDetector.detect` from the
`dominant_side` determination on (lines 786–855); `move = p_end - p_start`. -/
def reversionSideSignal (c : KalshiClientModel) (hist : List (String × ℚ))
    (now : ℚ) (ticker : String) (ticker_trades small_trades : List Trade)
    (dominant_side : String) : Option Signal :=
  if SELL_ONLY ∧ dominant_side ≠ "yes" then none
  else if reversionPricesStart ticker_trades = [] ∨
      reversionPricesEnd ticker_trades = [] then none
  else if dominant_side = "yes" ∧
      reversionPEnd ticker_trades - reversionPStart ticker_trades
        < MIN_PRICE_MOVE then none
  else if dominant_side = "no" ∧
      (-MIN_PRICE_MOVE) <
        reversionPEnd ticker_trades - reversionPStart ticker_trades then none
  else if reversionPEnd ticker_trades < ENTRY_PRICE_MIN ∨
      ENTRY_PRICE_MAX < reversionPEnd ticker_trades then none
  else if now - ((alistLookup ticker hist).getD 0) < COOLDOWN_SECS then none
  else
    some { ticker := ticker,
           title := (c.getMarket ticker).title.getD ticker,
           eventTicker := (c.getMarket ticker).eventTicker,
           fadeAction := if dominant_side = "yes" then "SELL" else "BUY",
           fadeSide := if dominant_side = "yes" then "no" else "yes",
           entryPrice := pyRound4 (reversionPEnd ticker_trades),
           preSignalPrice := pyRound4 (reversionPStart ticker_trades),
           priceMove := pyRound4
             (reversionPEnd ticker_trades - reversionPStart ticker_trades),
           nSmallTrades := small_trades.length,
           retailContracts := (small_trades.map Trade.count).sum,
           signalTime := now,
           signalType := SigKind.reversion,
           noPrice := 0, noPriceCents := 0, closeTs := 0 }

/-- `small_trades` of line 770: trades of at most `SMALL_TRADE_LIMIT`
contracts. -/
def reversionSmallTrades (ticker_trades : List Trade) : List Trade :=
  ticker_trades.filter (fun t => t.count ≤ SMALL_TRADE_LIMIT)

/-- `yes_count` of line 777. -/
def reversionYesCount (ticker_trades : List Trade) : ℕ :=
  ((reversionSmallTrades ticker_trades).filter
    (fun t => t.takerSide = "yes")).length

/-- The per-ticker body of `KalshiReversionDetector.detect` (lines
766–855): allowed-ticker filter, small-trade count band, dominant-side
test. -/
def reversionTickerSignal (c : KalshiClientModel) (hist : List (String × ℚ))
    (now : ℚ) (ticker : String) (ticker_trades : List Trade) : Option Signal :=
  if ¬ c.is_allowed_ticker ticker then none
  else if (reversionSmallTrades ticker_trades).length < MIN_SMALL_TRADES then
    none
  else if MAX_SMALL_TRADES < (reversionSmallTrades ticker_trades).length then
    none
  else if MIN_SIDE_FRAC ≤ (reversionYesCount ticker_trades : ℚ) /
      ((reversionSmallTrades ticker_trades).length : ℚ) then
    reversionSideSignal c hist now ticker ticker_trades
      (reversionSmallTrades ticker_trades) "yes"
  else if MIN_SIDE_FRAC ≤
      (((reversionSmallTrades ticker_trades).length -
          reversionYesCount ticker_trades : ℕ) : ℚ) /
        ((reversionSmallTrades ticker_trades).length : ℚ) then
    reversionSideSignal c hist now ticker ticker_trades
      (reversionSmallTrades ticker_trades) "no"
  else none

/-- The `for ticker, ticker_trades in by_ticker.items()` loop of
`KalshiReversionDetector.detect`, threading `signal_history` and
recording each `_save()`'s contents. -/
def KalshiReversionDetector.loop (c : KalshiClientModel) (now : ℚ) :
    List (String × List Trade) → List (String × ℚ) →
      List Signal × List (String × ℚ) × List (List (String × ℚ))
  | [], hist => ([], hist, [])
  | (ticker, tts) :: rest, hist =>
    match reversionTickerSignal c hist now ticker tts with
    | none => KalshiReversionDetector.loop c now rest hist
    | some sig =>
      let hist' := alistSet ticker now hist
      let r := KalshiReversionDetector.loop c now rest hist'
      (sig :: r.1, r.2.1, hist' :: r.2.2)

/-- `KalshiReversionDetector.detect(trades, client, now_ts)` with the
detector's `signal_history` explicit: returns the signals, the final
history, and the dict contents written by each `_save()`. -/
def KalshiReversionDetector.detect (c : KalshiClientModel)
    (trades : List Trade) (now : ℚ) (hist : List (String × ℚ)) :
    List Signal × List (String × ℚ) × List (List (String × ℚ)) :=
  if trades = [] then ([], hist, [])
  else KalshiReversionDetector.loop c now (groupByTicker trades) hist

/-- The per-market mid-price of `ImpliedProbDetector.detect` (lines
947–963): `(int(yes_bid)+int(yes_ask))/2/100` when both are truthy,
else `int(last_price)/100` when truthy, else none. -/
def implPriceOf (m : MarketRec) : Option ℚ :=
  let fromBidAsk : Option ℚ :=
    match m.yesBid, m.yesAsk with
    | some b, some a =>
      if b ≠ 0 ∧ a ≠ 0 then some (((b + a : ℤ) : ℚ) / 2 / 100) else none
    | _, _ => none
  match fromBidAsk with
  | some p => some p
  | none =>
    match m.lastPrice with
    | some l => if l ≠ 0 then some ((l : ℚ) / 100) else none
    | none => none

/-- The `events` grouping loop of `ImpliedProbDetector.detect`:
markets with both an event ticker and a ticker, grouped by event. -/
def groupByEvent (ms : List MarketRec) : List (String × List MarketRec) :=
  ms.foldl
    (fun acc m =>
      if m.eventTicker ≠ "" ∧ m.ticker ≠ "" then
        alistAppend m.eventTicker m acc
      else acc) []

/-- Python `max(outcomes, key=price)` starting from the first element:
the first outcome with the maximal price. -/
def firstMaxOutcome (best : String × ℚ × String) :
    List (String × ℚ × String) → String × ℚ × String
  | [] => best
  | o :: rest => firstMaxOutcome (if best.2.1 < o.2.1 then o else best) rest

/-- Python `min(outcomes, key=price)` starting from the first element. -/
def firstMinOutcome (best : String × ℚ × String) :
    List (String × ℚ × String) → String × ℚ × String
  | [] => best
  | o :: rest => firstMinOutcome (if o.2.1 < best.2.1 then o else best) rest

/-- The `outcome_prices` collection of lines 946–968: per-market
mid-prices kept when inside `[IMPL_MIN_PRICE, IMPL_MAX_PRICE]`, as
`(ticker, price, title)`. -/
def implOutcomePrices (mkts : List MarketRec) : List (String × ℚ × String) :=
  mkts.filterMap (fun m =>
    match implPriceOf m with
    | some price =>
      if IMPL_MIN_PRICE ≤ price ∧ price ≤ IMPL_MAX_PRICE then
        some (m.ticker, price, m.title.getD m.ticker)
      else none
    | none => none)

/-- `deviation = prob_sum - 1.0` over the collected outcome prices
(lines 975–977). -/
def implDeviation (mkts : List MarketRec) : ℚ :=
  ((implOutcomePrices mkts).map (fun o => o.2.1)).sum - 1

/-- `target = max(outcome_prices, key=price)` when overpriced, else the
min (lines 986–996). -/
def implTarget (mkts : List MarketRec) : String × ℚ × String :=
  if 0 < implDeviation mkts then
    firstMaxOutcome (implOutcomePrices mkts).headI (implOutcomePrices mkts).tail
  else
    firstMinOutcome (implOutcomePrices mkts).headI (implOutcomePrices mkts).tail

/-- The per-event body of `ImpliedProbDetector.detect` (lines 896–1019):
outcome-count band, prop/mention/combo/crypto filters, cooldown, price
collection, deviation band, and target selection. -/
def implEventSignal (hist : List (String × ℚ)) (now : ℚ)
    (event_ticker : String) (mkts : List MarketRec) : Option Signal :=
  if ¬ (IMPL_MIN_OUTCOMES ≤ mkts.length ∧ mkts.length ≤ IMPL_MAX_OUTCOMES) then
    none
  else if (mkts.map (fun m => (m.title.getD "").toLower)).any
      (fun t => prop_keywords.any (fun kw => strContains t kw)) then none
  else if MENTION_KEYWORDS.any
      (fun kw => strContains ((mkts.headI).title.getD "").toLower kw) then none
  else if IMPL_EXCLUDED_PREFIXES.any
      (fun p => event_ticker.toUpper.startsWith p.toUpper) then none
  else if cryptoFinTickers.any
      (fun p => (mkts.headI).ticker.toUpper.startsWith p) then none
  else if now - ((alistLookup event_ticker hist).getD 0)
      < IMPL_COOLDOWN_SECS then none
  else if (implOutcomePrices mkts).length < IMPL_MIN_OUTCOMES then none
  else if |implDeviation mkts| < IMPL_DEVIATION_THRESHOLD then none
  else if IMPL_MAX_DEVIATION < |implDeviation mkts| then none
  else
    some { ticker := (implTarget mkts).1,
           title := (implTarget mkts).2.2,
           eventTicker := event_ticker,
           fadeAction := if 0 < implDeviation mkts then "SELL" else "BUY",
           fadeSide := if 0 < implDeviation mkts then "no" else "yes",
           entryPrice := pyRound4 (implTarget mkts).2.1,
           preSignalPrice := pyRound4 (implTarget mkts).2.1,
           priceMove := pyRound4 (implDeviation mkts),
           nSmallTrades := (implOutcomePrices mkts).length,
           retailContracts := 0,
           signalTime := now,
           signalType := SigKind.impliedProb,
           noPrice := 0, noPriceCents := 0, closeTs := 0 }

/-- The `for event_ticker, mkts in events.items()` loop of
`ImpliedProbDetector.detect`, threading `signal_history` and recording
each `_save()`'s contents. -/
def ImpliedProbDetector.loop (now : ℚ) :
    List (String × List MarketRec) → List (String × ℚ) →
      List Signal × List (String × ℚ) × List (List (String × ℚ))
  | [], hist => ([], hist, [])
  | (et, mkts) :: rest, hist =>
    match implEventSignal hist now et mkts with
    | none => ImpliedProbDetector.loop now rest hist
    | some sig =>
      let hist' := alistSet et now hist
      let r := ImpliedProbDetector.loop now rest hist'
      (sig :: r.1, r.2.1, hist' :: r.2.2)

/-- `ImpliedProbDetector.detect(all_markets, client, now_ts)` with the
detector's `signal_history` explicit. -/
def ImpliedProbDetector.detect (all_markets : List MarketRec) (now : ℚ)
    (hist : List (String × ℚ)) :
    List Signal × List (String × ℚ) × List (List (String × ℚ)) :=
  ImpliedProbDetector.loop now (groupByEvent all_markets) hist

/-- `is_ncaa = 'NCAAMENTION' in ticker_upper or 'NCAABMENTION' in
ticker_upper` (line 1128). -/
def mentionIsNcaa (ticker : String) : Bool :=
  strContains ticker.toUpper "NCAAMENTION" ||
    strContains ticker.toUpper "NCAABMENTION"

/-- `is_trump = 'TRUMPMENTION' in ticker_upper` (line 1127). -/
def mentionIsTrump (ticker : String) : Bool :=
  strContains ticker.toUpper "TRUMPMENTION"

/-- The YES mid-price of lines 1160–1178: `(int(yes_bid)+int(yes_ask))/2/100`
when both are non-None, else `int(last_price)/100` when non-None. -/
def mentionYesPrice (m : MarketRec) : Option ℚ :=
  match m.yesBid, m.yesAsk with
  | some b, some a => some (((b + a : ℤ) : ℚ) / 2 / 100)
  | _, _ =>
    match m.lastPrice with
    | some l => some ((l : ℚ) / 100)
    | none => none

/-- The price-and-cooldown tail of the `MentionBuyNoDetector.detect`
body (lines 1160–1243): YES mid price, NO price band (25c for NCAA,
else 30c), the 24h cooldown read
(`self.signal_history.get(ticker, 0)`) — the ledger is never written —
and the signal dict. -/
def mentionPriceSignal (hist : List (String × ℚ)) (now : ℚ)
    (m : MarketRec) : Option Signal :=
  match mentionYesPrice m with
  | none => none
  | some yp =>
    if 1 - yp < MENTION_MIN_NO_PRICE ∨
        (if mentionIsNcaa m.ticker then 25/100
         else MENTION_MAX_NO_PRICE) < 1 - yp then none
    else if now - ((alistLookup m.ticker hist).getD 0)
        < MENTION_COOLDOWN_SECS then none
    else
      some { ticker := m.ticker,
             title := m.title.getD m.ticker,
             eventTicker := m.eventTicker,
             fadeAction := "SELL", fadeSide := "no",
             entryPrice := pyRound4 yp,
             preSignalPrice := pyRound4 yp,
             priceMove := 0,
             nSmallTrades := 0,
             retailContracts := 0,
             signalTime := now,
             signalType := SigKind.mentionBuyNo,
             noPrice := pyRound4 (1 - yp),
             noPriceCents := pyInt ((1 - yp) * 100),
             closeTs := m.closeTs.getD (now + 24 * 3600) }

/-- The per-category event-start window checks of lines 1121–1158
(`hours_to_event = (start_ts - now) / 3600`; NCAA live-only, Trump
0–24h before, default 0–1.5h before). -/
def mentionWindowSignal (hist : List (String × ℚ)) (now : ℚ)
    (m : MarketRec) (ms : Milestone) : Option Signal :=
  if mentionIsNcaa m.ticker ∧ 0 < (ms.startTs - now) / 3600 then none
  else if mentionIsNcaa m.ticker ∧ (ms.startTs - now) / 3600 < -2 then none
  else if ¬ mentionIsNcaa m.ticker ∧ mentionIsTrump m.ticker ∧
      24 < (ms.startTs - now) / 3600 then none
  else if ¬ mentionIsNcaa m.ticker ∧ mentionIsTrump m.ticker ∧
      (ms.startTs - now) / 3600 < 0 then none
  else if ¬ mentionIsNcaa m.ticker ∧ ¬ mentionIsTrump m.ticker ∧
      3/2 < (ms.startTs - now) / 3600 then none
  else if ¬ mentionIsNcaa m.ticker ∧ ¬ mentionIsTrump m.ticker ∧
      (ms.startTs - now) / 3600 < 0 then none
  else mentionPriceSignal hist now m

/-- The per-market body of `MentionBuyNoDetector.detect` (lines
1078–1243): category skips, close-time band, milestone lookup, then the
window and price stages. -/
def mentionMarketSignal (milestone_map : String → Option Milestone)
    (hist : List (String × ℚ)) (now : ℚ) (m : MarketRec) : Option Signal :=
  if m.ticker = "" then none
  else if strContains m.ticker.toUpper "EARNINGS" then none
  else if strContains m.ticker.toUpper "FIGHTMENTION" then none
  else if strContains m.ticker.toUpper "SECPRESS" ∨
      strContains m.ticker.toUpper "LEAVITT" then none
  else if strContains m.ticker.toUpper "NBAMENTION" ∨
      strContains m.ticker.toUpper "NBAFINALS" then none
  else if MENTION_MAX_CLOSE_HOURS <
      (m.closeTs.getD (now + 24 * 3600) - now) / 3600 then none
  else
    match milestone_map m.eventTicker with
    | none => none
    | some ms => mentionWindowSignal hist now m ms

/-- `MentionBuyNoDetector.detect(open_markets, client, now_ts)`: the
detector reads `signal_history` but never assigns to it, so the history
is a read-only argument and only the signals come back. -/
def MentionBuyNoDetector.detect (milestone_map : String → Option Milestone)
    (open_markets : List MarketRec) (hist : List (String × ℚ)) (now : ℚ) :
    List Signal :=
  open_markets.filterMap (mentionMarketSignal milestone_map hist now)

/-! ### Concrete detector inputs for the cooldown claims -/

/-- A client whose gateway knows nothing: empty category cache, empty
market records, no categories, no milestones. -/
def cEx : KalshiClientModel :=
  ⟨[], fun _ => ⟨"", none, "", none, none, none, none⟩, fun _ => "", fun _ => none⟩

/-- Twelve small YES-taker trades on one allowed ticker: the first three
at $0.20, the last three at $0.40 (a 20c up-move into the entry band). -/
def tradesEx : List Trade :=
  [⟨"ACME", 1, "yes", "", some (1/5)⟩,
   ⟨"ACME", 1, "yes", "", some (1/5)⟩,
   ⟨"ACME", 1, "yes", "", some (1/5)⟩,
   ⟨"ACME", 1, "yes", "", none⟩,
   ⟨"ACME", 1, "yes", "", none⟩,
   ⟨"ACME", 1, "yes", "", none⟩,
   ⟨"ACME", 1, "yes", "", none⟩,
   ⟨"ACME", 1, "yes", "", none⟩,
   ⟨"ACME", 1, "yes", "", none⟩,
   ⟨"ACME", 1, "yes", "", some (2/5)⟩,
   ⟨"ACME", 1, "yes", "", some (2/5)⟩,
   ⟨"ACME", 1, "yes", "", some (2/5)⟩]

/-- Three outcomes of one event, each mid-priced at $0.42: the implied
probability sum is 1.26, a +0.26 deviation inside the (0.05, 0.30] band. -/
def implMktsEx : List MarketRec :=
  [⟨"M1", some "alpha a", "EVX", some 40, some 44, none, none⟩,
   ⟨"M2", some "alpha b", "EVX", some 40, some 44, none, none⟩,
   ⟨"M3", some "alpha c", "EVX", some 40, some 44, none, none⟩]

/-- A milestone map: event `EVT` starts one hour after `t = 1000000`. -/
def mmEx : String → Option Milestone :=
  fun et => if et = "EVT" then some ⟨1000000 + 3600⟩ else none

/-- A Trump-mention market closing two hours after `t = 1000000`, with
YES quoted 85/87, so NO is at $0.14 — inside the 5–30c band. -/
def mEx : MarketRec :=
  ⟨"KXTRUMPMENTION-X", some "T says", "EVT", some 85, some 87, none,
   some (1000000 + 7200)⟩

/-! ### Detector cooldown lemmas -/

theorem alistLookup_alistSet (k k' : String) (v : β) :
    ∀ l : List (String × β),
      alistLookup k (alistSet k' v l) =
        if k' = k then some v else alistLookup k l := by
  intro l
  induction l with
  | nil => simp [alistSet, alistLookup]
  | cons p t ih =>
    obtain ⟨k0, v0⟩ := p
    by_cases h1 : k0 = k'
    · subst h1
      by_cases h2 : k0 = k
      · simp [alistSet, alistLookup, h2]
      · simp [alistSet, alistLookup, h2]
    · by_cases h2 : k0 = k
      · subst h2
        have h3 : ¬ k' = k0 := fun hh => h1 hh.symm
        simp [alistSet, alistLookup, h1, h3]
      · simp [alistSet, alistLookup, h1, h2, ih]

set_option maxHeartbeats 1000000 in
/-- An emitted per-side reversion signal carries the group's ticker and
implies the cooldown had lapsed in the history it was checked against. -/
theorem reversionSideSignal_spec {c : KalshiClientModel}
    {hist : List (String × ℚ)} {now : ℚ} {ticker : String}
    {tts sts : List Trade} {side : String} {sig : Signal}
    (h : reversionSideSignal c hist now ticker tts sts side = some sig) :
    sig.ticker = ticker ∧
    COOLDOWN_SECS ≤ now - ((alistLookup ticker hist).getD 0) := by
  unfold reversionSideSignal at h
  repeat' split at h
  all_goals first
    | exact Option.noConfusion h
    | (injection h with h1
       subst h1
       exact ⟨rfl, le_of_not_lt (by assumption)⟩)

set_option maxHeartbeats 1000000 in
/-- An emitted per-ticker reversion signal carries the group's ticker
and implies the cooldown had lapsed. -/
theorem reversionTickerSignal_spec {c : KalshiClientModel}
    {hist : List (String × ℚ)} {now : ℚ} {ticker : String}
    {tts : List Trade} {sig : Signal}
    (h : reversionTickerSignal c hist now ticker tts = some sig) :
    sig.ticker = ticker ∧
    COOLDOWN_SECS ≤ now - ((alistLookup ticker hist).getD 0) := by
  unfold reversionTickerSignal at h
  repeat' split at h
  all_goals first
    | exact Option.noConfusion h
    | exact reversionSideSignal_spec h

set_option maxHeartbeats 1000000 in
/-- An emitted implied-probability signal carries the group's event
ticker and implies the event cooldown had lapsed. -/
theorem implEventSignal_spec {hist : List (String × ℚ)} {now : ℚ}
    {et : String} {mkts : List MarketRec} {sig : Signal}
    (h : implEventSignal hist now et mkts = some sig) :
    sig.eventTicker = et ∧
    IMPL_COOLDOWN_SECS ≤ now - ((alistLookup et hist).getD 0) := by
  unfold implEventSignal at h
  repeat' split at h
  all_goals first
    | exact Option.noConfusion h
    | (injection h with h1
       subst h1
       exact ⟨rfl, le_of_not_lt (by assumption)⟩)

set_option maxHeartbeats 1000000 in
/-- An emitted price-stage mention signal carries the market's ticker
and implies the 24h ledger cooldown had lapsed. -/
theorem mentionPriceSignal_spec {hist : List (String × ℚ)} {now : ℚ}
    {m : MarketRec} {sig : Signal}
    (h : mentionPriceSignal hist now m = some sig) :
    sig.ticker = m.ticker ∧
    MENTION_COOLDOWN_SECS ≤ now - ((alistLookup m.ticker hist).getD 0) := by
  unfold mentionPriceSignal at h
  repeat' split at h
  all_goals first
    | exact Option.noConfusion h
    | (injection h with h1
       subst h1
       exact ⟨rfl, le_of_not_lt (by assumption)⟩)

set_option maxHeartbeats 1000000 in
/-- An emitted window-stage mention signal carries the market's ticker
and implies the 24h ledger cooldown had lapsed. -/
theorem mentionWindowSignal_spec {hist : List (String × ℚ)} {now : ℚ}
    {m : MarketRec} {ms : Milestone} {sig : Signal}
    (h : mentionWindowSignal hist now m ms = some sig) :
    sig.ticker = m.ticker ∧
    MENTION_COOLDOWN_SECS ≤ now - ((alistLookup m.ticker hist).getD 0) := by
  unfold mentionWindowSignal at h
  repeat' split at h
  all_goals first
    | exact Option.noConfusion h
    | exact mentionPriceSignal_spec h

set_option maxHeartbeats 1000000 in
/-- An emitted mention signal carries the market's ticker and implies
the 24h ledger cooldown had lapsed in the (read-only) history. -/
theorem mentionMarketSignal_spec {mm : String → Option Milestone}
    {hist : List (String × ℚ)} {now : ℚ} {m : MarketRec} {sig : Signal}
    (h : mentionMarketSignal mm hist now m = some sig) :
    sig.ticker = m.ticker ∧
    MENTION_COOLDOWN_SECS ≤ now - ((alistLookup m.ticker hist).getD 0) := by
  unfold mentionMarketSignal at h
  repeat' split at h
  all_goals first
    | exact Option.noConfusion h
    | exact mentionWindowSignal_spec h

/-- A `some now` cooldown entry survives the rest of the reversion loop:
every later write stores the same `now`. -/
theorem revLoop_lookup (c : KalshiClientModel) (now : ℚ) :
    ∀ (groups : List (String × List Trade)) (hist : List (String × ℚ))
      (k : String), alistLookup k hist = some now →
      alistLookup k (KalshiReversionDetector.loop c now groups hist).2.1
        = some now := by
  intro groups
  induction groups with
  | nil => intro hist k h; exact h
  | cons g rest ih =>
    obtain ⟨t, tts⟩ := g
    intro hist k h
    rcases heq : reversionTickerSignal c hist now t tts with _ | sig0
    · simp only [KalshiReversionDetector.loop, heq]
      exact ih hist k h
    · simp only [KalshiReversionDetector.loop, heq]
      apply ih
      rw [alistLookup_alistSet]
      split
      · rfl
      · exact h

/-- Every signal the reversion loop emits has its ticker mapped to `now`
in the final history, and in some saved snapshot. -/
theorem revLoop_emits (c : KalshiClientModel) (now : ℚ) :
    ∀ (groups : List (String × List Trade)) (hist : List (String × ℚ))
      (sig : Signal), sig ∈ (KalshiReversionDetector.loop c now groups hist).1 →
      alistLookup sig.ticker
          (KalshiReversionDetector.loop c now groups hist).2.1 = some now ∧
      ∃ s ∈ (KalshiReversionDetector.loop c now groups hist).2.2,
        alistLookup sig.ticker s = some now := by
  intro groups
  induction groups with
  | nil =>
    intro hist sig hmem
    simp [KalshiReversionDetector.loop] at hmem
  | cons g rest ih =>
    obtain ⟨t, tts⟩ := g
    intro hist sig hmem
    rcases heq : reversionTickerSignal c hist now t tts with _ | sig0
    · simp only [KalshiReversionDetector.loop, heq] at hmem ⊢
      exact ih hist sig hmem
    · simp only [KalshiReversionDetector.loop, heq] at hmem ⊢
      rcases List.mem_cons.mp hmem with rfl | hmem'
      · obtain ⟨htick, _⟩ := reversionTickerSignal_spec heq
        have hset : alistLookup sig.ticker (alistSet t now hist) = some now := by
          rw [htick, alistLookup_alistSet, if_pos rfl]
        constructor
        · exact revLoop_lookup c now rest _ _ hset
        · exact ⟨alistSet t now hist, List.mem_cons_self _ _, hset⟩
      · obtain ⟨h1, s, hs, h2⟩ := ih (alistSet t now hist) sig hmem'
        exact ⟨h1, s, List.mem_cons_of_mem _ hs, h2⟩

/-- A ticker whose history entry is too recent is never emitted by the
reversion loop. -/
theorem revLoop_blocked (c : KalshiClientModel)
    (now last : ℚ) (hc : now - last < COOLDOWN_SECS) :
    ∀ (groups : List (String × List Trade)) (hist : List (String × ℚ))
      (t : String), alistLookup t hist = some last →
      t ∉ (KalshiReversionDetector.loop c now groups hist).1.map
        Signal.ticker := by
  intro groups
  induction groups with
  | nil =>
    intro hist t h
    simp [KalshiReversionDetector.loop]
  | cons g rest ih =>
    obtain ⟨k, tts⟩ := g
    intro hist t h
    rcases heq : reversionTickerSignal c hist now k tts with _ | sig0
    · simp only [KalshiReversionDetector.loop, heq]
      exact ih hist t h
    · have hkt : k ≠ t := by
        intro hkt
        obtain ⟨_, hcool⟩ := reversionTickerSignal_spec heq
        rw [hkt, h] at hcool
        simp only [Option.getD_some] at hcool
        exact absurd hc (not_lt.mpr hcool)
      simp only [KalshiReversionDetector.loop, heq, List.map_cons]
      intro hmem
      rcases List.mem_cons.mp hmem with h1 | h1
      · obtain ⟨htick, _⟩ := reversionTickerSignal_spec heq
        rw [htick] at h1
        exact hkt h1.symm
      · refine ih (alistSet k now hist) t ?_ h1
        rw [alistLookup_alistSet, if_neg hkt]
        exact h

/-- A `some now` cooldown entry survives the rest of the implied-prob
loop. -/
theorem implLoop_lookup (now : ℚ) :
    ∀ (groups : List (String × List MarketRec)) (hist : List (String × ℚ))
      (k : String), alistLookup k hist = some now →
      alistLookup k (ImpliedProbDetector.loop now groups hist).2.1
        = some now := by
  intro groups
  induction groups with
  | nil => intro hist k h; exact h
  | cons g rest ih =>
    obtain ⟨et, mkts⟩ := g
    intro hist k h
    rcases heq : implEventSignal hist now et mkts with _ | sig0
    · simp only [ImpliedProbDetector.loop, heq]
      exact ih hist k h
    · simp only [ImpliedProbDetector.loop, heq]
      apply ih
      rw [alistLookup_alistSet]
      split
      · rfl
      · exact h

/-- Every signal the implied-prob loop emits has its event ticker mapped
to `now` in the final history, and in some saved snapshot. -/
theorem implLoop_emits (now : ℚ) :
    ∀ (groups : List (String × List MarketRec)) (hist : List (String × ℚ))
      (sig : Signal), sig ∈ (ImpliedProbDetector.loop now groups hist).1 →
      alistLookup sig.eventTicker
          (ImpliedProbDetector.loop now groups hist).2.1 = some now ∧
      ∃ s ∈ (ImpliedProbDetector.loop now groups hist).2.2,
        alistLookup sig.eventTicker s = some now := by
  intro groups
  induction groups with
  | nil =>
    intro hist sig hmem
    simp [ImpliedProbDetector.loop] at hmem
  | cons g rest ih =>
    obtain ⟨et, mkts⟩ := g
    intro hist sig hmem
    rcases heq : implEventSignal hist now et mkts with _ | sig0
    · simp only [ImpliedProbDetector.loop, heq] at hmem ⊢
      exact ih hist sig hmem
    · simp only [ImpliedProbDetector.loop, heq] at hmem ⊢
      rcases List.mem_cons.mp hmem with rfl | hmem'
      · obtain ⟨htick, _⟩ := implEventSignal_spec heq
        have hset : alistLookup sig.eventTicker (alistSet et now hist)
            = some now := by
          rw [htick, alistLookup_alistSet, if_pos rfl]
        constructor
        · exact implLoop_lookup now rest _ _ hset
        · exact ⟨alistSet et now hist, List.mem_cons_self _ _, hset⟩
      · obtain ⟨h1, s, hs, h2⟩ := ih (alistSet et now hist) sig hmem'
        exact ⟨h1, s, List.mem_cons_of_mem _ hs, h2⟩

/-- An event whose history entry is too recent is never emitted by the
implied-prob loop. -/
theorem implLoop_blocked (now last : ℚ)
    (hc : now - last < IMPL_COOLDOWN_SECS) :
    ∀ (groups : List (String × List MarketRec)) (hist : List (String × ℚ))
      (t : String), alistLookup t hist = some last →
      t ∉ (ImpliedProbDetector.loop now groups hist).1.map
        Signal.eventTicker := by
  intro groups
  induction groups with
  | nil =>
    intro hist t h
    simp [ImpliedProbDetector.loop]
  | cons g rest ih =>
    obtain ⟨k, mkts⟩ := g
    intro hist t h
    rcases heq : implEventSignal hist now k mkts with _ | sig0
    · simp only [ImpliedProbDetector.loop, heq]
      exact ih hist t h
    · have hkt : k ≠ t := by
        intro hkt
        obtain ⟨_, hcool⟩ := implEventSignal_spec heq
        rw [hkt, h] at hcool
        simp only [Option.getD_some] at hcool
        exact absurd hc (not_lt.mpr hcool)
      simp only [ImpliedProbDetector.loop, heq, List.map_cons]
      intro hmem
      rcases List.mem_cons.mp hmem with h1 | h1
      · obtain ⟨htick, _⟩ := implEventSignal_spec heq
        rw [htick] at h1
        exact hkt h1.symm
      · refine ih (alistSet k now hist) t ?_ h1
        rw [alistLookup_alistSet, if_neg hkt]
        exact h

/-- C6 (corrected): the reversion and implied-probability detectors do
not re-emit within their cooldown windows across two `detect` calls
(they write their ledgers inside `detect`); the mention detector only
honours the 24h ledger it is given — an emitted mention signal implies
the ledger entry for its ticker was at least 24h old — but `detect`
itself never writes that ledger, so without an external write (which the
orchestrator performs only after an order is placed) it re-emits. -/
theorem claim_C6_cooldowns :
    (∀ (c c' : KalshiClientModel) (trades trades' : List Trade)
        (hist : List (String × ℚ)) (now1 now2 : ℚ) (sig : Signal),
        sig ∈ (KalshiReversionDetector.detect c trades now1 hist).1 →
        now2 - now1 < COOLDOWN_SECS →
        sig.ticker ∉
          ((KalshiReversionDetector.detect c' trades' now2
              (KalshiReversionDetector.detect c trades now1 hist).2.1).1.map
            Signal.ticker)) ∧
    (∀ (ms ms' : List MarketRec) (hist : List (String × ℚ))
        (now1 now2 : ℚ) (sig : Signal),
        sig ∈ (ImpliedProbDetector.detect ms now1 hist).1 →
        now2 - now1 < IMPL_COOLDOWN_SECS →
        sig.eventTicker ∉
          ((ImpliedProbDetector.detect ms' now2
              (ImpliedProbDetector.detect ms now1 hist).2.1).1.map
            Signal.eventTicker)) ∧
    (∀ (mm : String → Option Milestone) (markets : List MarketRec)
        (hist : List (String × ℚ)) (now : ℚ) (sig : Signal),
        sig ∈ MentionBuyNoDetector.detect mm markets hist now →
        MENTION_COOLDOWN_SECS ≤ now - ((alistLookup sig.ticker hist).getD 0)) := by
  refine ⟨?_, ?_, ?_⟩
  · intro c c' trades trades' hist now1 now2 sig hmem hlt
    by_cases h1 : trades = []
    · rw [h1] at hmem
      simp [KalshiReversionDetector.detect] at hmem
    · rw [KalshiReversionDetector.detect, if_neg h1] at hmem
      by_cases h2 : trades' = []
      · rw [KalshiReversionDetector.detect, if_pos h2]
        simp
      · rw [KalshiReversionDetector.detect, if_neg h2]
        apply revLoop_blocked c' now2 now1 hlt
        rw [KalshiReversionDetector.detect, if_neg h1]
        exact (revLoop_emits c now1 _ _ _ hmem).1
  · intro ms ms' hist now1 now2 sig hmem hlt
    exact implLoop_blocked now2 now1 hlt _ _ _
      ((implLoop_emits now1 _ _ _ hmem).1)
  · intro mm markets hist now sig hmem
    obtain ⟨m, hm, hsig⟩ := List.mem_filterMap.mp hmem
    obtain ⟨ht, hc⟩ := mentionMarketSignal_spec hsig
    rw [ht]
    exact hc

set_option maxRecDepth 2000 in
/-- The mention detector re-emits for the same ticker 60 seconds after a
previous signal: its `detect` does not touch the cooldown ledger, so a
second call inside the 24h window produces the same signal again. -/
theorem claim_C6_counterexample :
    ((MentionBuyNoDetector.detect mmEx [mEx] [] 1000000).map Signal.ticker
        = ["KXTRUMPMENTION-X"]) ∧
    ((1000060 : ℚ) - 1000000 < MENTION_COOLDOWN_SECS) ∧
    ((MentionBuyNoDetector.detect mmEx [mEx] [] 1000060).map Signal.ticker
        = ["KXTRUMPMENTION-X"]) := by
  refine ⟨?_, ?_, ?_⟩ <;> with_unfolding_all decide

set_option maxRecDepth 2000 in
/-- Concrete instances of the three cooldown conjuncts: a reversion
emission blocked 60s later, an implied-prob emission blocked 60s later,
and a mention emission whose ledger entry had lapsed. -/
theorem claim_C6_cooldowns_witness :
    ((KalshiReversionDetector.detect cEx tradesEx 1000000 []).1.map
        Signal.ticker = ["ACME"] ∧
      (1000060 : ℚ) - 1000000 < COOLDOWN_SECS ∧
      ("ACME" : String) ∉
        ((KalshiReversionDetector.detect cEx tradesEx 1000060
            (KalshiReversionDetector.detect cEx tradesEx 1000000 []).2.1).1.map
          Signal.ticker)) ∧
    ((ImpliedProbDetector.detect implMktsEx 1000000 []).1.map
        Signal.eventTicker = ["EVX"] ∧
      (1000060 : ℚ) - 1000000 < IMPL_COOLDOWN_SECS ∧
      ("EVX" : String) ∉
        ((ImpliedProbDetector.detect implMktsEx 1000060
            (ImpliedProbDetector.detect implMktsEx 1000000 []).2.1).1.map
          Signal.eventTicker)) ∧
    ((MentionBuyNoDetector.detect mmEx [mEx] [] 1000000).map
        Signal.ticker = ["KXTRUMPMENTION-X"] ∧
      MENTION_COOLDOWN_SECS ≤ (1000000 : ℚ) -
        ((alistLookup "KXTRUMPMENTION-X" ([] : List (String × ℚ))).getD 0)) := by
  have hrev : (KalshiReversionDetector.detect cEx tradesEx 1000000 []).1.map
      Signal.ticker = ["ACME"] := by with_unfolding_all decide
  have himp : (ImpliedProbDetector.detect implMktsEx 1000000 []).1.map
      Signal.eventTicker = ["EVX"] := by with_unfolding_all decide
  have hmen : (MentionBuyNoDetector.detect mmEx [mEx] [] 1000000).map
      Signal.ticker = ["KXTRUMPMENTION-X"] := by with_unfolding_all decide
  obtain ⟨a, ha⟩ := List.length_eq_one.mp
    (by simpa using congrArg List.length hrev)
  have hat : a.ticker = "ACME" := by
    have := hrev
    rw [ha] at this
    simpa using this
  obtain ⟨b, hb⟩ := List.length_eq_one.mp
    (by simpa using congrArg List.length himp)
  have hbt : b.eventTicker = "EVX" := by
    have := himp
    rw [hb] at this
    simpa using this
  obtain ⟨d, hd⟩ := List.length_eq_one.mp
    (by simpa using congrArg List.length hmen)
  have hdt : d.ticker = "KXTRUMPMENTION-X" := by
    have := hmen
    rw [hd] at this
    simpa using this
  have hA := claim_C6_cooldowns.1 cEx cEx tradesEx tradesEx [] 1000000 1000060 a
    (by rw [ha]; exact List.mem_singleton_self a)
    (by with_unfolding_all decide)
  rw [hat] at hA
  have hB := claim_C6_cooldowns.2.1 implMktsEx implMktsEx [] 1000000 1000060 b
    (by rw [hb]; exact List.mem_singleton_self b)
    (by with_unfolding_all decide)
  rw [hbt] at hB
  have hC := claim_C6_cooldowns.2.2 mmEx [mEx] [] 1000000 d
    (by rw [hd]; exact List.mem_singleton_self d)
  rw [hdt] at hC
  exact ⟨⟨hrev, by with_unfolding_all decide, hA⟩,
    ⟨himp, by with_unfolding_all decide, hB⟩, ⟨hmen, hC⟩⟩

/-- C10: every signal emitted by the reversion or implied-probability
detector has its key (ticker, resp. event ticker) mapped to the call's
`now_ts` in the detector's final `signal_history`, and some `_save()`
performed inside `detect` wrote a dict containing that entry — the
cooldown is burned at detection, before any orchestrator check runs. -/
theorem claim_C10_cooldown_burned_at_detection :
    (∀ (c : KalshiClientModel) (trades : List Trade)
        (hist : List (String × ℚ)) (now : ℚ) (sig : Signal),
        sig ∈ (KalshiReversionDetector.detect c trades now hist).1 →
        alistLookup sig.ticker
            (KalshiReversionDetector.detect c trades now hist).2.1
          = some now ∧
        ∃ s ∈ (KalshiReversionDetector.detect c trades now hist).2.2,
          alistLookup sig.ticker s = some now) ∧
    (∀ (ms : List MarketRec) (hist : List (String × ℚ)) (now : ℚ)
        (sig : Signal),
        sig ∈ (ImpliedProbDetector.detect ms now hist).1 →
        alistLookup sig.eventTicker
            (ImpliedProbDetector.detect ms now hist).2.1 = some now ∧
        ∃ s ∈ (ImpliedProbDetector.detect ms now hist).2.2,
          alistLookup sig.eventTicker s = some now) := by
  constructor
  · intro c trades hist now sig hmem
    by_cases h1 : trades = []
    · rw [h1] at hmem
      simp [KalshiReversionDetector.detect] at hmem
    · rw [KalshiReversionDetector.detect, if_neg h1] at hmem ⊢
      exact revLoop_emits c now _ _ _ hmem
  · intro ms hist now sig hmem
    exact implLoop_emits now _ _ _ hmem

set_option maxRecDepth 2000 in
/-- Concrete instances: the emitted reversion and implied-prob signals
have their keys stamped `now` in the final history. -/
theorem claim_C10_cooldown_burned_at_detection_witness :
    ((KalshiReversionDetector.detect cEx tradesEx 1000000 []).1.map
        Signal.ticker = ["ACME"] ∧
      alistLookup "ACME"
          (KalshiReversionDetector.detect cEx tradesEx 1000000 []).2.1
        = some 1000000) ∧
    ((ImpliedProbDetector.detect implMktsEx 1000000 []).1.map
        Signal.eventTicker = ["EVX"] ∧
      alistLookup "EVX" (ImpliedProbDetector.detect implMktsEx 1000000 []).2.1
        = some 1000000) := by
  have hrev : (KalshiReversionDetector.detect cEx tradesEx 1000000 []).1.map
      Signal.ticker = ["ACME"] := by with_unfolding_all decide
  have himp : (ImpliedProbDetector.detect implMktsEx 1000000 []).1.map
      Signal.eventTicker = ["EVX"] := by with_unfolding_all decide
  obtain ⟨a, ha⟩ := List.length_eq_one.mp
    (by simpa using congrArg List.length hrev)
  have hat : a.ticker = "ACME" := by
    have := hrev
    rw [ha] at this
    simpa using this
  obtain ⟨b, hb⟩ := List.length_eq_one.mp
    (by simpa using congrArg List.length himp)
  have hbt : b.eventTicker = "EVX" := by
    have := himp
    rw [hb] at this
    simpa using this
  have hA := (claim_C10_cooldown_burned_at_detection.1 cEx tradesEx [] 1000000 a
    (by rw [ha]; exact List.mem_singleton_self a)).1
  rw [hat] at hA
  have hB := (claim_C10_cooldown_burned_at_detection.2 implMktsEx [] 1000000 b
    (by rw [hb]; exact List.mem_singleton_self b)).1
  rw [hbt] at hB
  exact ⟨⟨hrev, hA⟩, ⟨himp, hB⟩⟩

end KalshiBot
